import Mathlib

/-!
Verification of the permission-template generator (src/main.py).

The development shallowly embeds the program's core pipeline:

* `build_permissions` / `get_file_permissions` — the PermissionReader
  (src/main.py, get_file_permissions): decodes the nine POSIX permission
  bits out of st_mode and renders the symbolic mode string via the
  standard library's stat.filemode, which is embedded here as `filemode`
  (the table-driven algorithm of CPython's stat.py).
* `PathSpec_from_lines` / `match_file` — the PatternMatcher.  pathspec
  registers only the 'gitwildmatch' factory (and its deprecated alias
  'gitignore'); the 'gitwildcard' name that src/main.py line 118 passes
  is resolved by a plain dict lookup and raises KeyError, which the
  scanner's except-OSError clause does not catch.  The gitwildmatch
  compilation itself is embedded for the pattern subclass exercised by
  the specification: patterns without a slash, with the segment
  wildcards `*` and `?`, and the leading `!` negation / `#` comment
  markers; such a pattern matches a relative path exactly when it
  matches one of the path's `/`-separated segments, and the last
  matching pattern in the ordered list decides.
* `scan_files` / `analyze_directory_permissions` — the DirectoryScanner.
  The filesystem walk is an explicit argument: the ordered listing of
  relative file paths together with the (possibly failing, hence
  `Option`) result of the per-file stat call; os.walk runs with the
  default onerror=None, so a bad root yields the empty listing rather
  than an OSError.  The scanner propagates the factory lookup's
  KeyError, so every call returns that error before the loop runs.
* a JSON value type with the serializer of json.dump(..., indent=4)
  and the parser of json.loads, used by write_output's validation gate.
* `write_output` and `main_run` — the output stage and the main driver's
  control flow over abstract inputs.
-/

set_option maxHeartbeats 4000000

namespace PaPermGen

/-- Result of a successful os.stat call: the fields of stat_result that
get_file_permissions reads (st_mode, st_uid, st_gid, st_size). -/
structure FileMeta where
  st_mode : Nat
  st_uid : Nat
  st_gid : Nat
  st_size : Nat
deriving DecidableEq, Repr

/-- One row of CPython's stat._filemode_table: candidate (bit, char)
pairs; the first pair whose bits are all set in the mode supplies the
character. -/
def filemode_row (mode : Nat) (row : List (Nat × Char)) (dflt : Char) : Char :=
  match row.find? (fun bc => mode &&& bc.1 == bc.1) with
  | some bc => bc.2
  | none => dflt

/-- The file-type row of stat._filemode_table (S_IFLNK, S_IFSOCK,
S_IFREG, S_IFBLK, S_IFDIR, S_IFCHR, S_IFIFO). -/
def filemode_type_row : List (Nat × Char) :=
  [(0o120000, 'l'), (0o140000, 's'), (0o100000, '-'), (0o60000, 'b'),
   (0o40000, 'd'), (0o20000, 'c'), (0o10000, 'p')]

/-- The nine permission rows of stat._filemode_table, in owner/group/other
order; the execute columns account for setuid/setgid/sticky. -/
def filemode_perm_rows : List (List (Nat × Char)) :=
  [[(0o400, 'r')], [(0o200, 'w')],
   [(0o100 ||| 0o4000, 's'), (0o4000, 'S'), (0o100, 'x')],
   [(0o40, 'r')], [(0o20, 'w')],
   [(0o10 ||| 0o2000, 's'), (0o2000, 'S'), (0o10, 'x')],
   [(0o4, 'r')], [(0o2, 'w')],
   [(0o1 ||| 0o1000, 't'), (0o1000, 'T'), (0o1, 'x')]]

/-- stat.filemode(mode): the ten-character symbolic mode string, as the
list of its characters. -/
def filemode (mode : Nat) : List Char :=
  filemode_row mode filemode_type_row '?' ::
    filemode_perm_rows.map (fun row => filemode_row mode row '-')

/-- The permissions dictionary built by get_file_permissions from a
successful stat: the nine booleans are bitmask tests against
S_IRUSR..S_IXOTH exactly as in src/main.py lines 75-95. -/
structure Permissions where
  user_read : Bool
  user_write : Bool
  user_execute : Bool
  group_read : Bool
  group_write : Bool
  group_execute : Bool
  other_read : Bool
  other_write : Bool
  other_execute : Bool
  owner : Nat
  group_id : Nat
  mode : List Char
  file_size : Nat
deriving DecidableEq, Repr

/-- The body of get_file_permissions on a successful os.stat. -/
def build_permissions (st : FileMeta) : Permissions :=
  { user_read := st.st_mode &&& 0o400 != 0
    user_write := st.st_mode &&& 0o200 != 0
    user_execute := st.st_mode &&& 0o100 != 0
    group_read := st.st_mode &&& 0o40 != 0
    group_write := st.st_mode &&& 0o20 != 0
    group_execute := st.st_mode &&& 0o10 != 0
    other_read := st.st_mode &&& 0o4 != 0
    other_write := st.st_mode &&& 0o2 != 0
    other_execute := st.st_mode &&& 0o1 != 0
    owner := st.st_uid
    group_id := st.st_gid
    mode := filemode st.st_mode
    file_size := st.st_size }

/-- get_file_permissions: the stat call's outcome is the argument
(`none` is the OSError branch, which logs and returns None). -/
def get_file_permissions (stat_result : Option FileMeta) : Option Permissions :=
  match stat_result with
  | some st => some (build_permissions st)
  | none => none

/-! ### PatternMatcher -/

/-- Match one gitwildcard glob against one path segment, with an
explicit recursion budget: every recursive call shrinks the glob or the
segment, so a budget of glob length + segment length + 1 never runs
out. -/
def segGlobMatchFuel : Nat → List Char → List Char → Bool
  | 0, _, _ => false
  | _ + 1, [], [] => true
  | _ + 1, [], _ :: _ => false
  | f + 1, '*' :: ps, s =>
    segGlobMatchFuel f ps s ||
      (match s with
       | [] => false
       | _ :: s' => segGlobMatchFuel f ('*' :: ps) s')
  | f + 1, '?' :: ps, s =>
    match s with
    | [] => false
    | _ :: s' => segGlobMatchFuel f ps s'
  | f + 1, p :: ps, s =>
    match s with
    | [] => false
    | c :: s' => p == c && segGlobMatchFuel f ps s'

/-- Match one gitwildcard glob (no `/`, wildcards `*` and `?`) against one
path segment; `*` matches any run of characters inside the segment, `?`
any single character. -/
def segGlobMatch (glob seg : List Char) : Bool :=
  segGlobMatchFuel (glob.length + seg.length + 1) glob seg

/-- Split a relative path into its `/`-separated segments. -/
def pathSegs : List Char → List (List Char)
  | [] => [[]]
  | c :: cs =>
    let rest := pathSegs cs
    if c = '/' then [] :: rest
    else
      match rest with
      | [] => [[c]]
      | seg :: segs => (c :: seg) :: segs

/-- A slash-free gitwildcard pattern matches a relative path exactly when
it matches one of the path's segments (pathspec anchors such a pattern at
any depth and lets a matched directory cover everything below it). -/
def patMatchesPath (glob : List Char) (path : List Char) : Bool :=
  (pathSegs path).any (fun seg => segGlobMatch glob seg)

/-- Compile one pattern line as pathspec's gitwildmatch factory does:
empty lines and `#` comments yield no pattern, a leading `!` flips the
include flag to false (negation), anything else is an include-true
pattern. -/
def compile_pattern (p : String) : Option (Bool × List Char) :=
  match p.data with
  | [] => none
  | '#' :: _ => none
  | '!' :: rest => some (false, rest)
  | cs => some (true, cs)

/-- The compilation done by the registered gitwildmatch pattern factory
(the deprecated gitignore alias compiles the same way): the ordered
list of compiled (include, glob) pairs. -/
def gitwildmatch_from_lines (patterns : List String) : List (Bool × List Char) :=
  patterns.filterMap compile_pattern

/-- A Python exception escaping a modelled call.  KeyError is what
pathspec.util.lookup_pattern raises for an unregistered factory name;
OSError is the class the scanner's except clause catches. -/
inductive PyErr : Type where
  | keyError : PyErr
  | osError : PyErr
deriving DecidableEq, Repr

/-- The pattern-factory names pathspec registers: 'gitwildmatch' and
its deprecated alias 'gitignore'.  No other name is registered. -/
def registered_pattern_factories : List String := ["gitwildmatch", "gitignore"]

/-- PathSpec.from_lines(factory, patterns): util.lookup_pattern resolves
the factory name by a plain dict lookup, so an unregistered name — in
particular the 'gitwildcard' that src/main.py line 118 passes — raises
KeyError; a registered name compiles the lines. -/
def PathSpec_from_lines (factory : String) (patterns : List String) :
    Except PyErr (List (Bool × List Char)) :=
  if factory ∈ registered_pattern_factories then
    .ok (gitwildmatch_from_lines patterns)
  else .error .keyError

/-- PathSpec.match_file: the include flag of the last pattern matching
the path, false when no pattern matches. -/
def match_file (spec : List (Bool × List Char)) (path : List Char) : Bool :=
  spec.foldl (fun acc pr => if patMatchesPath pr.2 path then pr.1 else acc) false

/-! ### DirectoryScanner -/

/-- One record appended by analyze_directory_permissions:
{"file_path": relative_path, "permissions": permissions}. -/
structure FileRecord where
  file_path : String
  permissions : Permissions
deriving DecidableEq, Repr

/-- The loop of src/main.py lines 119-133 over the walk's (relative
path, stat outcome) pairs, given a compiled exclusion spec: skip a file
when the spec matches its relative path (before any metadata read),
otherwise append a record when the per-file stat succeeded. -/
def scan_files (spec : List (Bool × List Char))
    (entries : List (String × Option FileMeta)) : List FileRecord :=
  entries.foldl
    (fun acc e =>
      if match_file spec e.1.data then acc
      else
        match get_file_permissions e.2 with
        | some p => acc ++ [{ file_path := e.1, permissions := p }]
        | none => acc)
    []

/-- analyze_directory_permissions.  The walk argument is the ordered
list of (relative path, stat outcome) pairs that os.walk yields; since
os.walk is called with the default onerror=None it swallows listing
errors, so an unopenable or nonexistent root simply yields the empty
listing and nothing in the try body can raise OSError.  The body first
calls PathSpec.from_lines("gitwildcard", ...), whose KeyError (the name
is not a registered factory) propagates through the except clause of
lines 134-136 — that clause catches only OSError, so its
log-and-return-[] branch is unreachable. -/
def analyze_directory_permissions (walk : List (String × Option FileMeta))
    (exclude_patterns : List String) : Except PyErr (List FileRecord) :=
  let body : Except PyErr (List FileRecord) :=
    match PathSpec_from_lines "gitwildcard" exclude_patterns with
    | .error e => .error e
    | .ok spec => .ok (scan_files spec walk)
  match body with
  | .error .osError => .ok []
  | r => r

/-! ### JSON values

The structured data handled by write_output's validation gate.  JSON
numbers are modelled as integers: the fractional/exponent float forms
(and the non-standard NaN/Infinity constants) accepted by json.loads are
floating-point values, outside the scope of this embedding.  Strings are
lists of Unicode scalar values; the surrogate halves that CPython's str
can additionally carry are not representable, so the embedded parser
rejects an unpaired \uXXXX surrogate escape instead of keeping it. -/

mutual
inductive JValue : Type where
  | jnull : JValue
  | jbool : Bool → JValue
  | jnum : Int → JValue
  | jstr : List Char → JValue
  | jarr : JArr → JValue
  | jobj : JObj → JValue
inductive JArr : Type where
  | nil : JArr
  | cons : JValue → JArr → JArr
inductive JObj : Type where
  | nil : JObj
  | cons : List Char → JValue → JObj → JObj
end

/-- The keys of an object, in order. -/
def objKeys : JObj → List (List Char)
  | .nil => []
  | .cons k _ tl => k :: objKeys tl

/-- The member list of an object, in order. -/
def toPairs : JObj → List (List Char × JValue)
  | .nil => []
  | .cons k v tl => (k, v) :: toPairs tl

/-- Concatenation of two member lists. -/
def objAppend : JObj → JObj → JObj
  | .nil, o => o
  | .cons k v tl, o => .cons k v (objAppend tl o)

/-- CPython dict insertion: an existing key keeps its position and gets
the new value, a new key is appended at the end. -/
def dictInsert : JObj → List Char → JValue → JObj
  | .nil, k, v => .cons k v .nil
  | .cons k' v' tl, k, v =>
    if k' = k then .cons k' v tl else .cons k' v' (dictInsert tl k v)

/-- dict(pairs): fold the parsed member pairs through dict insertion
(duplicate keys: last value wins, first position kept). -/
def dictOfPairs (ps : List (List Char × JValue)) : JObj :=
  ps.foldl (fun d p => dictInsert d p.1 p.2) .nil

/-! ### Serialization: json.dump(obj, f, indent=4)

With indent=4 the default separators are (",", ": "): every container
item starts on its own line at the next indent level; empty containers
print as [] and {}; keys keep their dict (insertion) order since
sort_keys is not passed; ensure_ascii is the default, so every
non-ASCII or control character is \u-escaped. -/

/-- The decimal digit character for d < 10. -/
def natDigitChar (d : Nat) : Char := Char.ofNat (48 + d)

/-- Decimal digits of a natural number, most significant first, with an
explicit recursion budget (n / 10 < n, so a budget of n + 1 never runs
out). -/
def natReprFuel : Nat → Nat → List Char
  | 0, _ => []
  | f + 1, n =>
    if n < 10 then [natDigitChar n]
    else natReprFuel f (n / 10) ++ [natDigitChar (n % 10)]

/-- Decimal representation of a natural number (int.__repr__). -/
def natRepr (n : Nat) : List Char := natReprFuel (n + 1) n

/-- Decimal representation of an integer (int.__repr__). -/
def intRepr : Int → List Char
  | .ofNat n => natRepr n
  | .negSucc n => '-' :: natRepr (n + 1)

/-- Lowercase hexadecimal digit character for d < 16. -/
def hexDigitChar (d : Nat) : Char :=
  if d < 10 then Char.ofNat (48 + d) else Char.ofNat (87 + d)

/-- Four lowercase hex digits of n < 0x10000 ("%04x"). -/
def hex4 (n : Nat) : List Char :=
  [hexDigitChar (n / 4096 % 16), hexDigitChar (n / 256 % 16),
   hexDigitChar (n / 16 % 16), hexDigitChar (n % 16)]

/-- A \uXXXX escape. -/
def uEsc (n : Nat) : List Char := '\\' :: 'u' :: hex4 n

/-- py_encode_basestring_ascii, per character: the two-character escapes
for backslash, quote, \b \t \n \f \r; \u00XX for the other control
characters; printable ASCII kept verbatim; everything else \u-escaped,
with a surrogate pair for scalar values above 0xFFFF. -/
def escapeChar (c : Char) : List Char :=
  if c = '"' then ['\\', '"']
  else if c = '\\' then ['\\', '\\']
  else if c = Char.ofNat 8 then ['\\', 'b']
  else if c = Char.ofNat 9 then ['\\', 't']
  else if c = Char.ofNat 10 then ['\\', 'n']
  else if c = Char.ofNat 12 then ['\\', 'f']
  else if c = Char.ofNat 13 then ['\\', 'r']
  else if c.toNat < 0x20 then uEsc c.toNat
  else if c.toNat < 0x7f then [c]
  else if c.toNat < 0x10000 then uEsc c.toNat
  else uEsc (0xd800 + (c.toNat - 0x10000) / 0x400) ++
       uEsc (0xdc00 + (c.toNat - 0x10000) % 0x400)

/-- The escaped body of a JSON string literal. -/
def escBody (s : List Char) : List Char :=
  s.foldr (fun c acc => escapeChar c ++ acc) []

/-- A JSON string literal: quote, escaped body, quote. -/
def encodeString (s : List Char) : List Char := '"' :: (escBody s ++ ['"'])

/-- The indentation prefix at nesting level lvl (4 spaces per level). -/
def indent (lvl : Nat) : List Char := List.replicate (4 * lvl) ' '

mutual
/-- json.dump with indent=4: serialize one value at nesting level lvl. -/
def dumpValue : JValue → Nat → List Char
  | .jnull, _ => ['n', 'u', 'l', 'l']
  | .jbool true, _ => ['t', 'r', 'u', 'e']
  | .jbool false, _ => ['f', 'a', 'l', 's', 'e']
  | .jnum n, _ => intRepr n
  | .jstr s, _ => encodeString s
  | .jarr .nil, _ => ['[', ']']
  | .jarr (.cons v tl), lvl =>
    '[' :: '\n' :: (indent (lvl + 1) ++ (dumpValue v (lvl + 1) ++
      (dumpArrTail tl (lvl + 1) ++ '\n' :: (indent lvl ++ [']']))))
  | .jobj .nil, _ => ['{', '}']
  | .jobj (.cons k v tl), lvl =>
    '{' :: '\n' :: (indent (lvl + 1) ++ (encodeString k ++ ':' :: ' ' ::
      (dumpValue v (lvl + 1) ++
        (dumpObjTail tl (lvl + 1) ++ '\n' :: (indent lvl ++ ['}'])))))
/-- The ",\n<indent><item>" continuation of a non-empty array. -/
def dumpArrTail : JArr → Nat → List Char
  | .nil, _ => []
  | .cons v tl, lvl =>
    ',' :: '\n' :: (indent lvl ++ (dumpValue v lvl ++ dumpArrTail tl lvl))
/-- The ",\n<indent><key>: <value>" continuation of a non-empty object. -/
def dumpObjTail : JObj → Nat → List Char
  | .nil, _ => []
  | .cons k v tl, lvl =>
    ',' :: '\n' :: (indent lvl ++ (encodeString k ++ ':' :: ' ' ::
      (dumpValue v lvl ++ dumpObjTail tl lvl)))
end

/-- json.dump(v, f, indent=4): the full text written to the file. -/
def json_dump_indent4 (v : JValue) : List Char := dumpValue v 0

/-! ### Parsing: json.loads -/

/-- The whitespace characters skipped by json's WHITESPACE regex. -/
def isJsonWs (c : Char) : Bool := c == ' ' || c == '\t' || c == '\n' || c == '\r'

/-- Skip leading whitespace. -/
def skipWs (s : List Char) : List Char := s.dropWhile isJsonWs

/-- Value of one hexadecimal digit (either case), as in \uXXXX escapes. -/
def hexVal (c : Char) : Option Nat :=
  if '0' ≤ c ∧ c ≤ '9' then some (c.toNat - 48)
  else if 'a' ≤ c ∧ c ≤ 'f' then some (c.toNat - 87)
  else if 'A' ≤ c ∧ c ≤ 'F' then some (c.toNat - 55)
  else none

/-- Prepend a decoded character to a string-parse result. -/
def consFst (c : Char) (o : Option (List Char × List Char)) :
    Option (List Char × List Char) :=
  o.map (fun p => (c :: p.1, p.2))

/-- Four hex digits \uXXXX after the \u, and the rest of the input. -/
def parseUHex : List Char → Option (Nat × List Char)
  | d1 :: d2 :: d3 :: d4 :: rest =>
    match hexVal d1, hexVal d2, hexVal d3, hexVal d4 with
    | some h1, some h2, some h3, some h4 =>
      some (((h1 * 16 + h2) * 16 + h3) * 16 + h4, rest)
    | _, _, _, _ => none
  | _ => none

/-- The decoded character of a two-character backslash escape
(the BACKSLASH table of json.decoder: " \\ / b f n r t). -/
def escCharFor (e : Char) : Option Char :=
  if e = '"' then some '"'
  else if e = '\\' then some '\\'
  else if e = '/' then some '/'
  else if e = 'b' then some (Char.ofNat 8)
  else if e = 'f' then some (Char.ofNat 12)
  else if e = 'n' then some (Char.ofNat 10)
  else if e = 'r' then some (Char.ofNat 13)
  else if e = 't' then some (Char.ofNat 9)
  else none

/-- Outcome of decoding one string character: the closing quote, one
decoded character plus the remaining input, or a scan error. -/
inductive StrStep : Type where
  | done : List Char → StrStep
  | emit : Char → List Char → StrStep
  | fail : StrStep

/-- The \uXXXX low half following a high surrogate n, combining the two
halves into one scalar value. -/
def lowSurStep (n : Nat) : List Char → StrStep
  | a :: b :: cs3 =>
    if a = '\\' ∧ b = 'u' then
      match parseUHex cs3 with
      | some (m, cs4) =>
        if 0xdc00 ≤ m ∧ m ≤ 0xdfff then
          .emit (Char.ofNat (0x10000 + (n - 0xd800) * 0x400 + (m - 0xdc00))) cs4
        else .fail
      | none => .fail
    else .fail
  | _ => .fail

/-- The four hex digits of \uXXXX: a plain scalar decodes directly, a
high surrogate needs a following \uXXXX low surrogate (an unpaired
surrogate is rejected, see the JValue comment). -/
def uniStep (cs : List Char) : StrStep :=
  match parseUHex cs with
  | none => .fail
  | some (n, cs3) =>
    if n < 0xd800 then .emit (Char.ofNat n) cs3
    else if n ≤ 0xdbff then lowSurStep n cs3
    else if n ≤ 0xdfff then .fail
    else .emit (Char.ofNat n) cs3

/-- The character after a backslash: a simple escape or \uXXXX. -/
def escStep : List Char → StrStep
  | [] => .fail
  | e :: cs2 =>
    match escCharFor e with
    | some d => .emit d cs2
    | none => if e = 'u' then uniStep cs2 else .fail

/-- Decode one character of a string body: the closing quote ends it, a
backslash starts an escape, a raw control character is an error
(strict mode), anything else stands for itself. -/
def strStep : List Char → StrStep
  | [] => .fail
  | c :: cs =>
    if c = '"' then .done cs
    else if c = '\\' then escStep cs
    else if c.toNat < 0x20 then .fail
    else .emit c cs

/-- py_scanstring after the opening quote: iterate strStep.  The fuel
only bounds the recursion depth; one unit per decoded character
suffices, and the wrapper parseStringBody supplies the input length. -/
def parseStringBodyFuel : Nat → List Char → Option (List Char × List Char)
  | 0, _ => none
  | f + 1, s =>
    match strStep s with
    | .done rest => some ([], rest)
    | .fail => none
    | .emit c rest => consFst c (parseStringBodyFuel f rest)

/-- py_scanstring after the opening quote, with the recursion budget
set from the input length (more than sufficient: every decoded
character consumes at least one input character). -/
def parseStringBody (cs : List Char) : Option (List Char × List Char) :=
  parseStringBodyFuel (cs.length + 1) cs

/-- Numeric value of a decimal digit character. -/
def digitVal (c : Char) : Nat := c.toNat - 48

/-- Value of a non-empty digit string. -/
def decDigits (ds : List Char) : Nat := ds.foldl (fun a c => 10 * a + digitVal c) 0

/-- The integer part of json's NUMBER_RE, (0|[1-9]\d*): a lone 0, or a
nonzero leading digit followed by the longest run of digits. -/
def parseNatTok : List Char → Option (Nat × List Char)
  | [] => none
  | c :: cs =>
    if c = '0' then some (0, cs)
    else if c.isDigit then
      some (decDigits (c :: cs.takeWhile Char.isDigit), cs.dropWhile Char.isDigit)
    else none

/-- An optionally negated integer literal. -/
def parseNumTok : List Char → Option (JValue × List Char)
  | [] => none
  | c :: cs =>
    if c = '-' then (parseNatTok cs).map (fun p => (.jnum (-(p.1 : Int)), p.2))
    else (parseNatTok (c :: cs)).map (fun p => (.jnum (p.1 : Int), p.2))

mutual
/-- scan_once: dispatch on the first character ({, [, ", the three
keyword literals, otherwise a number).  The fuel argument only bounds
the recursion depth; json_loads supplies enough for any input. -/
def parseValue : Nat → List Char → Option (JValue × List Char)
  | 0, _ => none
  | _ + 1, [] => none
  | f + 1, c :: cs =>
    if c = '{' then parseMembers f (skipWs cs)
    else if c = '[' then parseElems f (skipWs cs)
    else if c = '"' then
      match parseStringBody cs with
      | some p => some (.jstr p.1, p.2)
      | none => none
    else if c = 't' then
      match cs with
      | a :: b :: d :: r => if a = 'r' ∧ b = 'u' ∧ d = 'e' then some (.jbool true, r) else none
      | _ => none
    else if c = 'f' then
      match cs with
      | a :: b :: d :: e :: r =>
        if a = 'a' ∧ b = 'l' ∧ d = 's' ∧ e = 'e' then some (.jbool false, r) else none
      | _ => none
    else if c = 'n' then
      match cs with
      | a :: b :: d :: r => if a = 'u' ∧ b = 'l' ∧ d = 'l' then some (.jnull, r) else none
      | _ => none
    else parseNumTok (c :: cs)
/-- JSONArray after the opening bracket and whitespace: ] for the empty
array, else the first element. -/
def parseElems : Nat → List Char → Option (JValue × List Char)
  | 0, _ => none
  | _ + 1, [] => none
  | f + 1, c :: cs =>
    if c = ']' then some (.jarr .nil, cs)
    else
      match parseValue f (c :: cs) with
      | none => none
      | some (v, r) =>
        match parseElemsTail f (skipWs r) with
        | none => none
        | some (tl, r2) => some (.jarr (.cons v tl), r2)
/-- JSONArray's delimiter loop: , continues with the next element,
] closes. -/
def parseElemsTail : Nat → List Char → Option (JArr × List Char)
  | 0, _ => none
  | _ + 1, [] => none
  | f + 1, c :: cs =>
    if c = ']' then some (.nil, cs)
    else if c = ',' then
      match parseValue f (skipWs cs) with
      | none => none
      | some (v, r) =>
        match parseElemsTail f (skipWs r) with
        | none => none
        | some (tl, r2) => some (.cons v tl, r2)
    else none
/-- JSONObject after the opening brace and whitespace: } for the empty
object, else a quoted key, a colon, a value, then the delimiter loop;
the collected pairs go through dict(pairs). -/
def parseMembers : Nat → List Char → Option (JValue × List Char)
  | 0, _ => none
  | _ + 1, [] => none
  | f + 1, c :: cs =>
    if c = '}' then some (.jobj .nil, cs)
    else if c = '"' then
      match parseStringBody cs with
      | none => none
      | some (k, r1) =>
        match skipWs r1 with
        | [] => none
        | c2 :: r2 =>
          if c2 = ':' then
            match parseValue f (skipWs r2) with
            | none => none
            | some (v, r3) =>
              match parseMembersTail f (skipWs r3) with
              | none => none
              | some (ps, r4) => some (.jobj (dictOfPairs ((k, v) :: ps)), r4)
          else none
    else none
/-- JSONObject's delimiter loop: , continues with the next "key": value
pair, } closes; returns the raw pair list. -/
def parseMembersTail : Nat → List Char → Option (List (List Char × JValue) × List Char)
  | 0, _ => none
  | _ + 1, [] => none
  | f + 1, c :: cs =>
    if c = '}' then some ([], cs)
    else if c = ',' then
      match skipWs cs with
      | [] => none
      | c1 :: r1 =>
        if c1 = '"' then
          match parseStringBody r1 with
          | none => none
          | some (k, r2) =>
            match skipWs r2 with
            | [] => none
            | c2 :: r3 =>
              if c2 = ':' then
                match parseValue f (skipWs r3) with
                | none => none
                | some (v, r4) =>
                  match parseMembersTail f (skipWs r4) with
                  | none => none
                  | some (ps, r5) => some ((k, v) :: ps, r5)
              else none
        else none
    else none
end

/-- json.loads: skip leading whitespace, scan one value, then require
only whitespace to remain ("Extra data" otherwise). -/
def json_loads (s : List Char) : Option JValue :=
  let t := skipWs s
  match parseValue (t.length + 1) t with
  | some (v, r) => if skipWs r = [] then some v else none
  | none => none

/-- The record the scanner's loop body appends for one directory entry:
none when the exclusion spec matches the relative path or the stat
failed, the permission record otherwise. -/
def entryRecord (spec : List (Bool × List Char)) (e : String × Option FileMeta) :
    Option FileRecord :=
  if match_file spec e.1.data then none
  else (get_file_permissions e.2).map (fun p => { file_path := e.1, permissions := p })

mutual
/-- A value is well-formed when every object in it has pairwise distinct
keys — the invariant of everything produced by dict(pairs). -/
def wfV : JValue → Prop
  | .jnull => True
  | .jbool _ => True
  | .jnum _ => True
  | .jstr _ => True
  | .jarr a => wfA a
  | .jobj o => wfO o
def wfA : JArr → Prop
  | .nil => True
  | .cons v tl => wfV v ∧ wfA tl
def wfO : JObj → Prop
  | .nil => True
  | .cons k v tl => ¬ k ∈ objKeys tl ∧ wfV v ∧ wfO tl
end

mutual
/-- Recursion-depth budget of a value: an upper bound on the fuel the
scanner needs on this value's serialized form. -/
def jsizeV : JValue → Nat
  | .jnull => 1
  | .jbool _ => 1
  | .jnum _ => 1
  | .jstr _ => 1
  | .jarr a => 1 + jsizeA a
  | .jobj o => 1 + jsizeO o
def jsizeA : JArr → Nat
  | .nil => 1
  | .cons v tl => 1 + jsizeV v + jsizeA tl
def jsizeO : JObj → Nat
  | .nil => 1
  | .cons _ v tl => 1 + jsizeV v + jsizeO tl
end

/-! ### OutputWriter and the main driver -/

/-- The diagnostic outcome of write_output: which branch logged and
returned.  The code itself returns None in every case; this records
which logging.error / logging.info call was reached. -/
inductive WriteOutcome : Type where
  | success : WriteOutcome
  | invalidPayload : WriteOutcome
  | yamlUnavailable : WriteOutcome
  | ioFailure : WriteOutcome
  | invalidFormat : WriteOutcome
deriving DecidableEq, Repr

/-- write_output (src/main.py lines 166-212) over an abstract output
file state (`none` = no file at the path) and an abstract destination
writability.  The YAML collaborator (availability of the import,
yaml.safe_load, yaml.dump) is passed in, since PyYAML is an optional
external dependency.  The json branch parses the rendered text with
json.loads before any open(): a parse failure logs and returns with the
file untouched; only after a successful parse is the file opened and
the re-serialized canonical form written.  An OSError on open (an
unwritable destination) is caught by the outer handler, leaving the
file untouched. -/
def write_output (α : Type) (yamlAvailable : Bool)
    (yaml_safe_load : List Char → Option α) (yaml_dump : α → List Char)
    (canWrite : Bool) (file : Option (List Char)) (data : List Char)
    (output_format : String) : Option (List Char) × WriteOutcome :=
  if output_format = "json" then
    match json_loads data with
    | none => (file, .invalidPayload)
    | some v =>
      if canWrite then (some (json_dump_indent4 v), .success)
      else (file, .ioFailure)
  else if output_format = "yaml" then
    if yamlAvailable then
      match yaml_safe_load data with
      | none => (file, .invalidPayload)
      | some y =>
        if canWrite then (some (yaml_dump y), .success)
        else (file, .ioFailure)
    else (file, .yamlUnavailable)
  else (file, .invalidFormat)

/-- The abstract inputs of one run of main (src/main.py lines 215-246):
the two input-validation probes, the walk of the source tree, the
exclusion patterns, the Jinja renderer as a collaborator (None = a
TemplateError was logged), and write_output's environment. -/
structure MainEnv (α : Type) where
  source_dir_isdir : Bool
  template_isfile : Bool
  walk : List (String × Option FileMeta)
  exclude_patterns : List String
  render : List FileRecord → Option (List Char)
  yamlAvailable : Bool
  yaml_safe_load : List Char → Option α
  yaml_dump : α → List Char
  canWrite : Bool
  output_file : Option (List Char)
  output_format : String

/-- main: exit status and final state of the output path.  Missing
source dir or template file exit 1 before the scan; an exception
escaping analyze_directory_permissions (the scanner's KeyError) is
uncaught in main, so the interpreter prints a traceback and exits 1
without touching the output path; a render failure exits 1 before any
write; otherwise write_output runs and main falls off the end, so the
process exits 0 whatever write_output logged. -/
def main_run {α : Type} (env : MainEnv α) : Nat × Option (List Char) :=
  if !env.source_dir_isdir then (1, env.output_file)
  else if !env.template_isfile then (1, env.output_file)
  else
    match analyze_directory_permissions env.walk env.exclude_patterns with
    | .error _ => (1, env.output_file)
    | .ok permissions_data =>
      match env.render permissions_data with
      | none => (1, env.output_file)
      | some rendered =>
        (0, (write_output α env.yamlAvailable env.yaml_safe_load env.yaml_dump
              env.canWrite env.output_file rendered env.output_format).1)

/-! ### Specification-side definitions

These two definitions are transcriptions of the claims' words (not of
the source); the theorems compare them with the source-derived
functions above. -/

/-- Claim C2's re-encoding of the nine permission booleans at the
standard POSIX bit positions. -/
def encode_matrix (p : Permissions) : Nat :=
  (if p.user_read then 0o400 else 0) + (if p.user_write then 0o200 else 0) +
  (if p.user_execute then 0o100 else 0) + (if p.group_read then 0o40 else 0) +
  (if p.group_write then 0o20 else 0) + (if p.group_execute then 0o10 else 0) +
  (if p.other_read then 0o4 else 0) + (if p.other_write then 0o2 else 0) +
  (if p.other_execute then 0o1 else 0)

/-- Claim C3's nine permission characters: r/w/x when the corresponding
permission bit of the mode is set, '-' when it is clear, in
owner/group/other order. -/
def spec_mode_chars (m : Nat) : List Char :=
  [if m &&& 0o400 != 0 then 'r' else '-', if m &&& 0o200 != 0 then 'w' else '-',
   if m &&& 0o100 != 0 then 'x' else '-', if m &&& 0o40 != 0 then 'r' else '-',
   if m &&& 0o20 != 0 then 'w' else '-', if m &&& 0o10 != 0 then 'x' else '-',
   if m &&& 0o4 != 0 then 'r' else '-', if m &&& 0o2 != 0 then 'w' else '-',
   if m &&& 0o1 != 0 then 'x' else '-']

/-! ## Theorems -/

set_option maxRecDepth 100000

/-- The name 'gitwildcard' that src/main.py passes to
PathSpec.from_lines is not a registered pattern factory, so the lookup
raises KeyError whatever the pattern list. -/
theorem gitwildcard_unregistered (pats : List String) :
    PathSpec_from_lines "gitwildcard" pats = .error .keyError := rfl

/-- Every call of the scanner raises KeyError at the pattern-factory
lookup: the except clause catches only OSError, so the error escapes
before any directory entry is examined. -/
theorem analyze_keyError (walk : List (String × Option FileMeta)) (pats : List String) :
    analyze_directory_permissions walk pats = .error .keyError := rfl

/-- The scanner's loop is the filterMap of the per-entry record function. -/
theorem scan_foldl_eq (spec : List (Bool × List Char)) :
    ∀ (entries : List (String × Option FileMeta)) (acc : List FileRecord),
      entries.foldl
        (fun acc e =>
          if match_file spec e.1.data then acc
          else
            match get_file_permissions e.2 with
            | some p => acc ++ [{ file_path := e.1, permissions := p }]
            | none => acc) acc
      = acc ++ entries.filterMap (entryRecord spec) := by
  intro entries
  induction entries with
  | nil => intro acc; simp
  | cons e tl ih =>
    intro acc
    simp only [List.foldl_cons, List.filterMap_cons]
    by_cases h : match_file spec e.1.data
    · simp [entryRecord, h, ih]
    · cases hm : get_file_permissions e.2 with
      | none => simp [entryRecord, h, hm, ih]
      | some p => simp [entryRecord, h, hm, ih]

/-- Closed form of the scanner's loop over a compiled spec. -/
theorem scan_files_eq (spec : List (Bool × List Char))
    (entries : List (String × Option FileMeta)) :
    scan_files spec entries = entries.filterMap (entryRecord spec) := by
  simp only [scan_files]
  exact (scan_foldl_eq spec entries []).trans (by simp)

/-- C1: the program contradicts the claim at the claimed input. Scanning
a.log, important.log, b.txt with patterns ["*.log", "!important.log"]
does not return any record set: PathSpec.from_lines("gitwildcard", ...)
raises KeyError ('gitwildcard' is not a registered factory) and the
except-OSError clause does not catch it, so the scan crashes (first
conjunct).  The spec's intent is a one-token slip away: with the
registered 'gitwildmatch' factory the same loop yields records for
important.log and b.txt and none for a.log, the later negation pattern
reinstating important.log (remaining conjuncts). -/
theorem C1_exclusion_crashes_keyerror :
    analyze_directory_permissions
        [("a.log", some ⟨0o100644, 0, 0, 3⟩),
         ("important.log", some ⟨0o100644, 0, 0, 4⟩),
         ("b.txt", some ⟨0o100644, 0, 0, 5⟩)]
        ["*.log", "!important.log"] = .error .keyError ∧
    PathSpec_from_lines "gitwildmatch" ["*.log", "!important.log"]
      = .ok (gitwildmatch_from_lines ["*.log", "!important.log"]) ∧
    (∃ r ∈ scan_files (gitwildmatch_from_lines ["*.log", "!important.log"])
        [("a.log", some ⟨0o100644, 0, 0, 3⟩),
         ("important.log", some ⟨0o100644, 0, 0, 4⟩),
         ("b.txt", some ⟨0o100644, 0, 0, 5⟩)], r.file_path = "important.log") ∧
    (∃ r ∈ scan_files (gitwildmatch_from_lines ["*.log", "!important.log"])
        [("a.log", some ⟨0o100644, 0, 0, 3⟩),
         ("important.log", some ⟨0o100644, 0, 0, 4⟩),
         ("b.txt", some ⟨0o100644, 0, 0, 5⟩)], r.file_path = "b.txt") ∧
    (∀ r ∈ scan_files (gitwildmatch_from_lines ["*.log", "!important.log"])
        [("a.log", some ⟨0o100644, 0, 0, 3⟩),
         ("important.log", some ⟨0o100644, 0, 0, 4⟩),
         ("b.txt", some ⟨0o100644, 0, 0, 5⟩)], r.file_path ≠ "a.log") := by
  refine ⟨rfl, rfl, ?_⟩
  decide

/-- C6: the program contradicts the claim. A nonexistent or unlistable
root does not make the scan fail soft with a ScanError and zero
records: the scanner raises an uncaught KeyError at the
'gitwildcard' factory lookup before the root is ever examined — for
every walk, in particular the empty listing that os.walk (onerror=None)
silently yields for a bad root, and for every pattern list, including
the empty one.  The modelled except-OSError branch (the would-be logged
ScanError) is unreachable. -/
theorem C6_bad_root_keyerror (walk : List (String × Option FileMeta))
    (pats : List String) :
    analyze_directory_permissions walk pats = .error .keyError :=
  analyze_keyError walk pats

/-- C7: the claimed per-file fail-soft behavior is unreachable in the
program: every scan — in particular one over a walk containing an entry
whose stat fails — aborts with the KeyError of the factory lookup
before any per-file handling (first conjunct).  The loop of src/main.py
lines 119-133 itself is fail-soft exactly as the claim intends: under
any compiled spec, an entry whose metadata read fails produces no
record (not even a partial one) and dropping it leaves the scan of
every other entry unchanged (second conjunct). -/
theorem C7_failsoft_unreachable (spec : List (Bool × List Char))
    (pre post : List (String × Option FileMeta)) (p : String) (pats : List String) :
    analyze_directory_permissions (pre ++ (p, none) :: post) pats = .error .keyError ∧
    scan_files spec (pre ++ (p, none) :: post) = scan_files spec (pre ++ post) := by
  refine ⟨analyze_keyError _ _, ?_⟩
  simp only [scan_files_eq, List.filterMap_append, List.filterMap_cons]
  have h : entryRecord spec (p, none) = none := by
    simp [entryRecord, get_file_permissions]
  simp [h]

/-- Masking with a submask of 511 only sees the mode's lower 9 bits. -/
theorem and_mod512 (m b : Nat) (hb : 511 &&& b = b) : m &&& b = m % 512 &&& b := by
  have h9 : m % 512 = m &&& 511 := by
    have h := Nat.and_pow_two_sub_one_eq_mod m 9
    norm_num at h
    exact h.symm
  rw [h9, Nat.and_assoc, hb]

/-- The matrix round-trip identity on the 512 reduced modes. -/
theorem encode_matrix_lt : ∀ r, r < 512 →
    encode_matrix (build_permissions ⟨r, 0, 0, 0⟩) = r := by decide

/-- The encoded matrix only depends on the mode's lower 9 bits. -/
theorem encode_matrix_mode (m uid gid sz : Nat) :
    encode_matrix (build_permissions ⟨m, uid, gid, sz⟩) =
    encode_matrix (build_permissions ⟨m % 512, 0, 0, 0⟩) := by
  simp only [encode_matrix, build_permissions]
  simp only [and_mod512 m 0o400 (by decide), and_mod512 m 0o200 (by decide),
      and_mod512 m 0o100 (by decide), and_mod512 m 0o40 (by decide),
      and_mod512 m 0o20 (by decide), and_mod512 m 0o10 (by decide),
      and_mod512 m 0o4 (by decide), and_mod512 m 0o2 (by decide),
      and_mod512 m 0o1 (by decide)]

/-- C2: re-encoding the nine booleans that get_file_permissions decodes
from a stat's st_mode, at the standard POSIX bit positions, recovers
exactly the mode's lower nine bits. -/
theorem C2_matrix_roundtrip (st : FileMeta) :
    encode_matrix (build_permissions st) = st.st_mode % 512 := by
  obtain ⟨m, uid, gid, sz⟩ := st
  exact (encode_matrix_mode m uid gid sz).trans
    (encode_matrix_lt (m % 512) (Nat.mod_lt _ (by norm_num)))

/-- filemode agrees with the claim's r/w/x-per-bit reading on every mode
without setuid/setgid/sticky bits. -/
theorem filemode_no_special : ∀ p, p < 512 →
    (filemode (0o100000 + p)).length = 10 ∧
    filemode (0o100000 + p) = '-' :: spec_mode_chars (0o100000 + p) ∧
    filemode (0o40000 + p) = 'd' :: spec_mode_chars (0o40000 + p) := by decide

/-- C3 counterexample: for a setuid regular file (mode 0o104755) the
record's mode string is "-rwsr-xr-x" — the owner-execute column shows
's', not the 'x' the claim requires for a set execute bit. -/
theorem C3_mode_string_cex :
    (get_file_permissions (some ⟨0o104755, 0, 0, 0⟩)).map Permissions.mode
      = some "-rwsr-xr-x".data ∧
    ¬ (get_file_permissions (some ⟨0o104755, 0, 0, 0⟩)).map Permissions.mode
      = some ('-' :: spec_mode_chars 0o104755) := by decide

/-- C3 amended: for every mode whose setuid/setgid/sticky bits are
clear, the mode string is exactly ten characters, '-' (regular file) or
'd' (directory) followed by the nine r/w/x-per-bit characters in
owner/group/other order. -/
theorem C3_mode_string_amended (p : Nat) (h : p < 512) :
    (filemode (0o100000 + p)).length = 10 ∧
    filemode (0o100000 + p) = '-' :: spec_mode_chars (0o100000 + p) ∧
    filemode (0o40000 + p) = 'd' :: spec_mode_chars (0o40000 + p) :=
  filemode_no_special p h

/-- C3 witness: the amended statement at mode 0o100644. -/
theorem C3_mode_string_witness :
    (0o644 : Nat) < 512 ∧
    filemode (0o100000 + 0o644) = '-' :: spec_mode_chars (0o100000 + 0o644) :=
  ⟨by norm_num, (C3_mode_string_amended 0o644 (by norm_num)).2.1⟩


/-- C8: the claimed short-circuit behavior is unreachable in the
program: the exclusion spec is never constructed — every scan aborts
with the factory-lookup KeyError before any entry or any metadata is
examined, identically for any two filesystem states (first conjunct).
The loop of src/main.py lines 119-133 itself checks the spec before the
stat exactly as the claim intends: under any compiled spec, two walks
listing the same paths in the same order and agreeing on the stat
outcome of every non-excluded path produce identical loop results,
whatever the metadata or readability of the excluded files
(second conjunct). -/
theorem C8_shortcircuit_unreachable (pats : List String)
    (spec : List (Bool × List Char))
    (l1 l2 : List (String × Option FileMeta))
    (h : List.Forall₂ (fun a b => a.1 = b.1 ∧
          (match_file spec a.1.data = false → a.2 = b.2)) l1 l2) :
    (analyze_directory_permissions l1 pats = .error .keyError ∧
     analyze_directory_permissions l2 pats = .error .keyError) ∧
    scan_files spec l1 = scan_files spec l2 := by
  refine ⟨⟨analyze_keyError _ _, analyze_keyError _ _⟩, ?_⟩
  simp only [scan_files_eq]
  induction h with
  | nil => rfl
  | @cons a b tl1 tl2 hab htl ih =>
    obtain ⟨hpath, hmeta⟩ := hab
    simp only [List.filterMap_cons]
    by_cases hm : match_file spec a.1.data
    · have ha : entryRecord spec a = none := by simp [entryRecord, hm]
      have hb : entryRecord spec b = none := by
        simp [entryRecord, ← hpath, hm]
      rw [ha, hb, ih]
    · have hm' : match_file spec a.1.data = false := by simpa using hm
      have he : entryRecord spec a = entryRecord spec b := by
        simp [entryRecord, hpath, hmeta hm']
      rw [he, ih]

/-- C8 witness: at a concrete pair of walks that differ only in the
excluded a.log's stat outcome, the scanner raises KeyError on both, and
the loop under the compiled ["*.log"] spec gives identical results. -/
theorem C8_shortcircuit_unreachable_witness :
    (analyze_directory_permissions
        [("a.log", some ⟨0o100644, 0, 0, 1⟩), ("b.txt", some ⟨0o100644, 0, 0, 2⟩)]
        ["*.log"] = .error .keyError ∧
     analyze_directory_permissions
        [("a.log", none), ("b.txt", some ⟨0o100644, 0, 0, 2⟩)]
        ["*.log"] = .error .keyError) ∧
    scan_files (gitwildmatch_from_lines ["*.log"])
        [("a.log", some ⟨0o100644, 0, 0, 1⟩), ("b.txt", some ⟨0o100644, 0, 0, 2⟩)]
      = scan_files (gitwildmatch_from_lines ["*.log"])
        [("a.log", none), ("b.txt", some ⟨0o100644, 0, 0, 2⟩)] :=
  C8_shortcircuit_unreachable ["*.log"] (gitwildmatch_from_lines ["*.log"]) _ _
    (List.Forall₂.cons
      ⟨rfl, fun h => absurd h (by decide)⟩
      (List.Forall₂.cons ⟨rfl, fun _ => rfl⟩ List.Forall₂.nil))

/-- C4: write is all-or-nothing.  When the rendered text does not parse
in the declared format (json via json.loads, yaml via the collaborator's
safe_load), write_output logs the InvalidPayload diagnostic and returns
with the output file state unchanged — the file is opened and written
only after a successful parse. -/
theorem C4_invalid_payload_untouched (α : Type) (ya : Bool)
    (yp : List Char → Option α) (yd : α → List Char) (cw : Bool)
    (file : Option (List Char)) (data : List Char) (fmt : String) :
    (fmt = "json" → json_loads data = none →
      write_output α ya yp yd cw file data fmt = (file, .invalidPayload)) ∧
    (fmt = "yaml" → ya = true → yp data = none →
      write_output α ya yp yd cw file data fmt = (file, .invalidPayload)) := by
  constructor
  · intro hf hp; subst hf; simp [write_output, hp]
  · intro hf hy hp; subst hf; simp [write_output, hy, hp]

/-- C4 witness: unparseable rendered text leaves the existing output
file untouched in both formats. -/
theorem C4_invalid_payload_witness :
    json_loads ['o', 'o', 'p', 's'] = none ∧
    write_output Unit true (fun _ => none) (fun _ => []) true (some ['x'])
        ['o', 'o', 'p', 's'] "json" = (some ['x'], .invalidPayload) ∧
    write_output Unit true (fun _ => none) (fun _ => []) true (some ['x'])
        ['o', 'o', 'p', 's'] "yaml" = (some ['x'], .invalidPayload) :=
  ⟨rfl,
   (C4_invalid_payload_untouched Unit true (fun _ => none) (fun _ => []) true
      (some ['x']) ['o', 'o', 'p', 's'] "json").1 rfl rfl,
   (C4_invalid_payload_untouched Unit true (fun _ => none) (fun _ => []) true
      (some ['x']) ['o', 'o', 'p', 's'] "yaml").2 rfl rfl rfl⟩

/-- C10: a format string other than "json" or "yaml" is handled
gracefully at write_output's interface: the Invalid-output-format
diagnostic is logged and the function returns without creating,
truncating, or modifying the output file. -/
theorem C10_invalid_format (α : Type) (ya : Bool) (yp : List Char → Option α)
    (yd : α → List Char) (cw : Bool) (file : Option (List Char))
    (data : List Char) (fmt : String) (h1 : fmt ≠ "json") (h2 : fmt ≠ "yaml") :
    write_output α ya yp yd cw file data fmt = (file, .invalidFormat) := by
  simp [write_output, h1, h2]

/-- C10 witness: the format string "xml" leaves the output file
untouched. -/
theorem C10_invalid_format_witness :
    write_output Unit true (fun _ => none) (fun _ => []) true (some ['x'])
        ['a'] "xml" = (some ['x'], .invalidFormat) :=
  C10_invalid_format Unit true (fun _ => none) (fun _ => []) true (some ['x'])
    ['a'] "xml" (by decide) (by decide)

/-- C5: every run of main aborts with exit status 1 and leaves the
filesystem unchanged at the output path — in particular every run in
which a fatal error occurs.  A run failing the source-dir or
template-file check exits 1 before the scan; every other run dies at
the scanner's uncaught KeyError, printing a traceback and exiting 1
before the render and write stages, so the render-failure,
InvalidPayload and IOFailure events the claim names cannot occur and no
run ever writes, truncates or modifies the output file. -/
theorem C5_every_run_exits_nonzero {α : Type} (env : MainEnv α) :
    main_run env = (1, env.output_file) := by
  cases h1 : env.source_dir_isdir with
  | false => simp [main_run, h1]
  | true =>
    cases h2 : env.template_isfile with
    | false => simp [main_run, h1, h2]
    | true => simp [main_run, h1, h2, analyze_keyError]

end PaPermGen

namespace PaPermGen

/-! ### Whitespace lemmas -/

theorem skipWs_cons_of_ws {c : Char} (h : isJsonWs c = true) (s : List Char) :
    skipWs (c :: s) = skipWs s := by simp [skipWs, List.dropWhile_cons, h]

theorem skipWs_cons_of_not_ws {c : Char} (h : isJsonWs c = false) (s : List Char) :
    skipWs (c :: s) = c :: s := by simp [skipWs, List.dropWhile_cons, h]

theorem skipWs_replicate_space (n : Nat) (s : List Char) :
    skipWs (List.replicate n ' ' ++ s) = skipWs s := by
  induction n with
  | zero => simp
  | succ k ih =>
    rw [List.replicate_succ, List.cons_append, skipWs_cons_of_ws (by decide)]
    exact ih

theorem skipWs_indent (lvl : Nat) (s : List Char) :
    skipWs (indent lvl ++ s) = skipWs s := skipWs_replicate_space _ s

theorem skipWs_newline (s : List Char) : skipWs ('\n' :: s) = skipWs s :=
  skipWs_cons_of_ws (by decide) s

/-! ### Character lemmas -/

theorem hexVal_hexDigitChar : ∀ d, d < 16 → hexVal (hexDigitChar d) = some d := by decide

theorem char_toNat_valid (c : Char) :
    c.toNat < 0xd800 ∨ (0xdfff < c.toNat ∧ c.toNat < 0x110000) := c.valid

theorem digitVal_natDigitChar : ∀ d, d < 10 →
    digitVal (natDigitChar d) = d ∧ (natDigitChar d).isDigit = true ∧
    (1 ≤ d → natDigitChar d ≠ '0') := by decide

theorem isDigit_ne (c : Char) (h : c.isDigit = true) :
    isJsonWs c = false ∧ c ≠ '{' ∧ c ≠ '[' ∧ c ≠ '"' ∧ c ≠ 't' ∧ c ≠ 'f' ∧
    c ≠ 'n' ∧ c ≠ '-' ∧ c ≠ ']' ∧ c ≠ '}' ∧ c ≠ ',' := by
  refine ⟨?_, ?_, ?_, ?_, ?_, ?_, ?_, ?_, ?_, ?_, ?_⟩
  · cases hc : isJsonWs c with
    | false => rfl
    | true =>
      simp only [isJsonWs, Bool.or_eq_true, beq_iff_eq] at hc
      rcases hc with ((h1 | h1) | h1) | h1 <;> subst h1 <;> exact absurd h (by decide)
  all_goals intro hc; rw [hc] at h; exact absurd h (by decide)

/-! ### Decimal numerals -/

theorem decDigits_append_one (xs : List Char) (d : Char) :
    decDigits (xs ++ [d]) = 10 * decDigits xs + digitVal d := by
  simp [decDigits, List.foldl_append]

theorem natReprFuel_facts : ∀ f n, n < f →
    (∀ c ∈ natReprFuel f n, c.isDigit = true) ∧
    (∃ c t, natReprFuel f n = c :: t ∧ c.isDigit = true ∧ (1 ≤ n → c ≠ '0')) ∧
    decDigits (natReprFuel f n) = n := by
  intro f
  induction f with
  | zero => intro n hn; omega
  | succ f ih =>
    intro n hn
    by_cases h10 : n < 10
    · simp only [natReprFuel, if_pos h10]
      obtain ⟨hd, hdig, hz⟩ := digitVal_natDigitChar n h10
      refine ⟨?_, ⟨_, _, rfl, hdig, hz⟩, ?_⟩
      · intro c hc; simp at hc; subst hc; exact hdig
      · simp [decDigits, hd]
    · have hdiv : n / 10 < f := by
        have h1 : n / 10 < n := Nat.div_lt_self (by omega) (by omega)
        omega
      obtain ⟨ihall, ⟨c, t, hct, hcd, hcz⟩, ihval⟩ := ih (n / 10) hdiv
      simp only [natReprFuel, if_neg h10]
      obtain ⟨hd, hdig, _⟩ := digitVal_natDigitChar (n % 10) (Nat.mod_lt _ (by omega))
      refine ⟨?_, ⟨c, t ++ [natDigitChar (n % 10)], ?_, hcd, fun _ => hcz (by omega)⟩, ?_⟩
      · intro x hx
        rcases List.mem_append.mp hx with h1 | h1
        · exact ihall x h1
        · simp at h1; subst h1; exact hdig
      · rw [hct]; simp
      · rw [decDigits_append_one, ihval, hd]; omega

theorem natRepr_facts (n : Nat) :
    (∀ c ∈ natRepr n, c.isDigit = true) ∧
    (∃ c t, natRepr n = c :: t ∧ c.isDigit = true ∧ (1 ≤ n → c ≠ '0')) ∧
    decDigits (natRepr n) = n :=
  natReprFuel_facts (n + 1) n (by omega)

theorem takeWhile_append_sat (p : Char → Bool) :
    ∀ (xs ys : List Char), (∀ c ∈ xs, p c = true) →
      (∀ c, ys.head? = some c → p c = false) →
      (xs ++ ys).takeWhile p = xs ∧ (xs ++ ys).dropWhile p = ys := by
  intro xs
  induction xs with
  | nil =>
    intro ys _ hy
    cases ys with
    | nil => simp
    | cons c ys' =>
      have := hy c rfl
      simp [List.takeWhile_cons, List.dropWhile_cons, this]
  | cons x xs' ih =>
    intro ys hx hy
    have hpx := hx x (by simp)
    have ⟨h1, h2⟩ := ih ys (fun c hc => hx c (by simp [hc])) hy
    simp [List.takeWhile_cons, List.dropWhile_cons, hpx, h1, h2]

theorem parseNatTok_natRepr (n : Nat) (rest : List Char)
    (hrest : ∀ c, rest.head? = some c → c.isDigit = false) :
    parseNatTok (natRepr n ++ rest) = some (n, rest) := by
  obtain ⟨hall, ⟨c, t, hct, hcd, hcz⟩, hval⟩ := natRepr_facts n
  rcases Nat.eq_zero_or_pos n with h0 | hpos
  · subst h0
    have h00 : natRepr 0 = ['0'] := rfl
    rw [h00]
    simp [parseNatTok]
  · have hcz' := hcz hpos
    rw [hct, List.cons_append]
    have htall : ∀ x ∈ t, x.isDigit = true := by
      intro x hx; exact hall x (by rw [hct]; simp [hx])
    obtain ⟨htake, hdrop⟩ := takeWhile_append_sat Char.isDigit t rest htall hrest
    simp only [parseNatTok, if_neg hcz', if_pos hcd, htake, hdrop]
    rw [← hct, hval]

theorem parseNumTok_intRepr (i : Int) (rest : List Char)
    (hrest : ∀ c, rest.head? = some c → c.isDigit = false) :
    parseNumTok (intRepr i ++ rest) = some (.jnum i, rest) := by
  cases i with
  | ofNat n =>
    obtain ⟨_, ⟨c, t, hct, hcd, _⟩, _⟩ := natRepr_facts n
    have hcm : c ≠ '-' := (isDigit_ne c hcd).2.2.2.2.2.2.2.1
    have h1 : intRepr (Int.ofNat n) = natRepr n := rfl
    rw [h1, hct, List.cons_append, parseNumTok, if_neg hcm, ← List.cons_append, ← hct]
    rw [parseNatTok_natRepr n rest hrest]
    simp
  | negSucc n =>
    have h1 : intRepr (Int.negSucc n) = '-' :: natRepr (n + 1) := rfl
    rw [h1, List.cons_append, parseNumTok, if_pos rfl, parseNatTok_natRepr (n + 1) rest hrest]
    simp [Int.negSucc_eq]

end PaPermGen

namespace PaPermGen

/-! ### String escaping round-trip -/

theorem escBody_cons (c : Char) (s : List Char) :
    escBody (c :: s) = escapeChar c ++ escBody s := rfl

theorem consFst_some (c : Char) (s r : List Char) :
    consFst c (some (s, r)) = some (c :: s, r) := rfl

theorem parseUHex_hex4 (n : Nat) (hn : n < 0x10000) (X : List Char) :
    parseUHex (hex4 n ++ X) = some (n, X) := by
  show parseUHex (hexDigitChar (n / 4096 % 16) :: hexDigitChar (n / 256 % 16) ::
    hexDigitChar (n / 16 % 16) :: hexDigitChar (n % 16) :: X) = some (n, X)
  simp only [parseUHex,
    hexVal_hexDigitChar (n / 4096 % 16) (Nat.mod_lt _ (by omega)),
    hexVal_hexDigitChar (n / 256 % 16) (Nat.mod_lt _ (by omega)),
    hexVal_hexDigitChar (n / 16 % 16) (Nat.mod_lt _ (by omega)),
    hexVal_hexDigitChar (n % 16) (Nat.mod_lt _ (by omega))]
  have hval : ((n / 4096 % 16 * 16 + n / 256 % 16) * 16 + n / 16 % 16) * 16 + n % 16 = n := by
    omega
  rw [hval]

theorem uniStep_bmp (n : Nat) (hn : n < 0x10000) (hlo : n < 0xd800 ∨ 0xdfff < n)
    (X : List Char) : uniStep (hex4 n ++ X) = .emit (Char.ofNat n) X := by
  simp only [uniStep, parseUHex_hex4 n hn]
  rcases hlo with h | h
  · rw [if_pos h]
  · rw [if_neg (by omega), if_neg (by omega), if_neg (by omega)]

theorem uniStep_pair (n m : Nat) (hn1 : 0xd800 ≤ n) (hn2 : n ≤ 0xdbff)
    (hm1 : 0xdc00 ≤ m) (hm2 : m ≤ 0xdfff) (X : List Char) :
    uniStep (hex4 n ++ ('\\' :: 'u' :: (hex4 m ++ X))) =
      .emit (Char.ofNat (0x10000 + (n - 0xd800) * 0x400 + (m - 0xdc00))) X := by
  simp only [uniStep, parseUHex_hex4 n (by omega)]
  rw [if_neg (by omega), if_pos (by omega)]
  simp only [lowSurStep, and_self, if_true]
  simp only [parseUHex_hex4 m (by omega)]
  rw [if_pos (And.intro hm1 hm2)]

theorem strStep_backslash (Y : List Char) : strStep ('\\' :: Y) = escStep Y := rfl

theorem strStep_u (Y : List Char) : escStep ('u' :: Y) = uniStep Y := rfl

theorem strStep_lit (c : Char) (X : List Char) (h1 : ¬ c = '"')
    (h2 : ¬ c = '\\') (h3 : ¬ c.toNat < 0x20) :
    strStep (c :: X) = .emit c X := by
  simp only [strStep]
  rw [if_neg h1, if_neg h2, if_neg h3]

/-- Decoding one step of the serializer's escape of c yields c back. -/
theorem strStep_escapeChar (c : Char) (X : List Char) :
    strStep (escapeChar c ++ X) = .emit c X := by
  by_cases h1 : c = '"'
  · subst h1; rfl
  · by_cases h2 : c = '\\'
    · subst h2; rfl
    · by_cases h3 : c = Char.ofNat 8
      · subst h3; rfl
      · by_cases h4 : c = Char.ofNat 9
        · subst h4; rfl
        · by_cases h5 : c = Char.ofNat 10
          · subst h5; rfl
          · by_cases h6 : c = Char.ofNat 12
            · subst h6; rfl
            · by_cases h7 : c = Char.ofNat 13
              · subst h7; rfl
              · have hesc : escapeChar c =
                    (if c.toNat < 0x20 then uEsc c.toNat
                     else if c.toNat < 0x7f then [c]
                     else if c.toNat < 0x10000 then uEsc c.toNat
                     else uEsc (0xd800 + (c.toNat - 0x10000) / 0x400) ++
                          uEsc (0xdc00 + (c.toNat - 0x10000) % 0x400)) := by
                  simp only [escapeChar]
                  rw [if_neg h1, if_neg h2, if_neg h3, if_neg h4, if_neg h5, if_neg h6,
                    if_neg h7]
                by_cases h8 : c.toNat < 0x20
                · rw [hesc, if_pos h8]
                  show strStep ('\\' :: ('u' :: (hex4 c.toNat ++ X))) = _
                  rw [strStep_backslash, strStep_u,
                    uniStep_bmp c.toNat (by omega) (Or.inl (by omega)), Char.ofNat_toNat]
                · by_cases h9 : c.toNat < 0x7f
                  · rw [hesc, if_neg h8, if_pos h9]
                    exact strStep_lit c X h1 h2 h8
                  · by_cases h10 : c.toNat < 0x10000
                    · have hv := char_toNat_valid c
                      rw [hesc, if_neg h8, if_neg h9, if_pos h10]
                      show strStep ('\\' :: ('u' :: (hex4 c.toNat ++ X))) = _
                      rw [strStep_backslash, strStep_u,
                        uniStep_bmp c.toNat (by omega) (by omega), Char.ofNat_toNat]
                    · have hv := char_toNat_valid c
                      have hub : c.toNat < 0x110000 := by
                        rcases hv with h | ⟨_, h⟩
                        · omega
                        · exact h
                      rw [hesc, if_neg h8, if_neg h9, if_neg h10]
                      show strStep ('\\' :: ('u' :: (hex4 (0xd800 + (c.toNat - 0x10000) / 0x400) ++
                        ('\\' :: 'u' :: (hex4 (0xdc00 + (c.toNat - 0x10000) % 0x400) ++ X))))) = _
                      rw [strStep_backslash, strStep_u,
                        uniStep_pair _ _ (by omega) (by omega) (by omega) (by omega)]
                      have heq : 0x10000 +
                          (0xd800 + (c.toNat - 0x10000) / 0x400 - 0xd800) * 0x400 +
                          (0xdc00 + (c.toNat - 0x10000) % 0x400 - 0xdc00) = c.toNat := by
                        omega
                      rw [heq, Char.ofNat_toNat]

theorem parseStringBodyFuel_round : ∀ (s : List Char) (f : Nat) (rest : List Char),
    s.length < f →
    parseStringBodyFuel f (escBody s ++ '"' :: rest) = some (s, rest) := by
  intro s
  induction s with
  | nil =>
    intro f rest hf
    obtain ⟨f', rfl⟩ : ∃ f', f = f' + 1 := ⟨f - 1, by omega⟩
    simp only [parseStringBodyFuel]
    rfl
  | cons c s ih =>
    intro f rest hf
    obtain ⟨f', rfl⟩ : ∃ f', f = f' + 1 := ⟨f - 1, by omega⟩
    rw [escBody_cons, List.append_assoc]
    simp only [parseStringBodyFuel, strStep_escapeChar]
    rw [ih f' rest (by simp at hf; omega), consFst_some]

theorem escapeChar_length_pos (c : Char) : 1 ≤ (escapeChar c).length := by
  simp only [escapeChar]
  repeat' split
  all_goals simp [uEsc, hex4]

theorem escBody_length : ∀ s : List Char, s.length ≤ (escBody s).length := by
  intro s
  induction s with
  | nil => simp [escBody]
  | cons c s ih =>
    rw [escBody_cons]
    have := escapeChar_length_pos c
    simp only [List.length_append, List.length_cons]
    omega

theorem escBody_round (s rest : List Char) :
    parseStringBody (escBody s ++ '"' :: rest) = some (s, rest) := by
  apply parseStringBodyFuel_round
  have := escBody_length s
  simp only [List.length_append, List.length_cons]
  omega

end PaPermGen

namespace PaPermGen

/-! ### dict(pairs) lemmas -/

theorem objAppend_nil : ∀ d : JObj, objAppend d .nil = d
  | .nil => rfl
  | .cons k v tl => by simp only [objAppend, objAppend_nil tl]

theorem objKeys_append : ∀ a b : JObj, objKeys (objAppend a b) = objKeys a ++ objKeys b
  | .nil, b => by simp [objAppend, objKeys]
  | .cons k v tl, b => by simp [objAppend, objKeys, objKeys_append tl b]

theorem mem_objKeys_dictInsert : ∀ (d : JObj) (k : List Char) (v : JValue) (x : List Char),
    x ∈ objKeys (dictInsert d k v) ↔ x ∈ objKeys d ∨ x = k
  | .nil, k, v, x => by simp [dictInsert, objKeys]
  | .cons k' v' tl, k, v, x => by
    by_cases h : k' = k
    · subst h
      simp only [dictInsert, if_pos rfl, objKeys, List.mem_cons]
      tauto
    · simp only [dictInsert, if_neg h, objKeys, List.mem_cons,
        mem_objKeys_dictInsert tl k v x]
      tauto

theorem dictInsert_wf : ∀ (d : JObj) (k : List Char) (v : JValue),
    wfO d → wfV v → wfO (dictInsert d k v)
  | .nil, k, v, _, hv => by
    simp only [dictInsert]
    exact ⟨by simp [objKeys], hv, trivial⟩
  | .cons k' v' tl, k, v, hd, hv => by
    obtain ⟨hk', hv', htl⟩ := hd
    by_cases h : k' = k
    · subst h
      simp only [dictInsert, if_pos rfl]
      exact ⟨hk', hv, htl⟩
    · simp only [dictInsert, if_neg h]
      refine ⟨?_, hv', dictInsert_wf tl k v htl hv⟩
      intro hm
      rcases (mem_objKeys_dictInsert tl k v k').mp hm with h1 | h1
      · exact hk' h1
      · exact h h1

theorem dictInsert_append : ∀ (d : JObj) (k : List Char) (v : JValue),
    ¬ k ∈ objKeys d → dictInsert d k v = objAppend d (.cons k v .nil)
  | .nil, k, v, _ => rfl
  | .cons k' v' tl, k, v, h => by
    have hne : k' ≠ k := by
      intro he; exact h (by simp [objKeys, he])
    simp only [dictInsert, if_neg hne, objAppend]
    rw [dictInsert_append tl k v (fun hm => h (by simp [objKeys, hm]))]

theorem objAppend_assoc : ∀ a b c : JObj,
    objAppend (objAppend a b) c = objAppend a (objAppend b c)
  | .nil, b, c => rfl
  | .cons k v tl, b, c => by simp [objAppend, objAppend_assoc tl b c]

theorem foldl_dictInsert : ∀ (o : JObj) (d : JObj), wfO o →
    (∀ x ∈ objKeys o, ¬ x ∈ objKeys d) →
    List.foldl (fun d p => dictInsert d p.1 p.2) d (toPairs o) = objAppend d o
  | .nil, d, _, _ => by simp [toPairs, objAppend_nil]
  | .cons k v tl, d, ho, hdisj => by
    obtain ⟨hk, hv, htl⟩ := ho
    have hkd : ¬ k ∈ objKeys d := hdisj k (by simp [objKeys])
    simp only [toPairs, List.foldl_cons]
    rw [dictInsert_append d k v hkd]
    rw [foldl_dictInsert tl (objAppend d (.cons k v .nil)) htl ?_]
    · rw [objAppend_assoc]
      rfl
    · intro x hx
      rw [objKeys_append]
      simp only [List.mem_append, objKeys, List.mem_singleton]
      rintro (h1 | h1)
      · exact hdisj x (by simp [objKeys, hx]) h1
      · subst h1; exact hk hx

theorem dictOfPairs_toPairs (o : JObj) (h : wfO o) : dictOfPairs (toPairs o) = o := by
  have h2 := foldl_dictInsert o .nil h (by simp [objKeys])
  simpa [dictOfPairs, objAppend] using h2

theorem foldl_dictInsert_wf : ∀ (ps : List (List Char × JValue)) (d : JObj),
    wfO d → (∀ p ∈ ps, wfV p.2) →
    wfO (List.foldl (fun d p => dictInsert d p.1 p.2) d ps)
  | [], d, hd, _ => hd
  | p :: ps, d, hd, hps => by
    simp only [List.foldl_cons]
    exact foldl_dictInsert_wf ps _ (dictInsert_wf d p.1 p.2 hd (hps p (by simp)))
      (fun q hq => hps q (by simp [hq]))

theorem dictOfPairs_wf (ps : List (List Char × JValue)) (h : ∀ p ∈ ps, wfV p.2) :
    wfO (dictOfPairs ps) :=
  foldl_dictInsert_wf ps .nil trivial h

/-! ### Serialized-form shapes and sizes -/

theorem dump_head_shape : ∀ (v : JValue) (lvl : Nat), ∃ c t, dumpValue v lvl = c :: t ∧
    isJsonWs c = false ∧ c ≠ ']' ∧ c ≠ '}' ∧ c ≠ ',' := by
  intro v lvl
  cases v with
  | jnull => exact ⟨'n', _, rfl, by decide, by decide, by decide, by decide⟩
  | jbool b =>
    cases b with
    | true => exact ⟨'t', _, rfl, by decide, by decide, by decide, by decide⟩
    | false => exact ⟨'f', _, rfl, by decide, by decide, by decide, by decide⟩
  | jnum n =>
    cases n with
    | ofNat k =>
      obtain ⟨_, ⟨c, t, hct, hcd, _⟩, _⟩ := natRepr_facts k
      have h := isDigit_ne c hcd
      exact ⟨c, t, hct, h.1, h.2.2.2.2.2.2.2.2.1, h.2.2.2.2.2.2.2.2.2.1,
        h.2.2.2.2.2.2.2.2.2.2⟩
    | negSucc k =>
      exact ⟨'-', _, rfl, by decide, by decide, by decide, by decide⟩
  | jstr s => exact ⟨'"', _, rfl, by decide, by decide, by decide, by decide⟩
  | jarr a =>
    cases a with
    | nil => exact ⟨'[', _, rfl, by decide, by decide, by decide, by decide⟩
    | cons v tl => exact ⟨'[', _, rfl, by decide, by decide, by decide, by decide⟩
  | jobj o =>
    cases o with
    | nil => exact ⟨'{', _, rfl, by decide, by decide, by decide, by decide⟩
    | cons k v tl => exact ⟨'{', _, rfl, by decide, by decide, by decide, by decide⟩

theorem skipWs_dump (v : JValue) (lvl : Nat) (X : List Char) :
    skipWs (dumpValue v lvl ++ X) = dumpValue v lvl ++ X := by
  obtain ⟨c, t, hct, hws, _⟩ := dump_head_shape v lvl
  rw [hct, List.cons_append, skipWs_cons_of_not_ws hws]

theorem dumpArrTail_head_not_digit (tl : JArr) (lvl : Nat) (Y : List Char) :
    ∀ c, (dumpArrTail tl lvl ++ '\n' :: Y).head? = some c → c.isDigit = false := by
  intro c h
  cases tl with
  | nil => simp [dumpArrTail] at h; subst h; decide
  | cons v tl => simp [dumpArrTail] at h; subst h; decide

theorem dumpObjTail_head_not_digit (tl : JObj) (lvl : Nat) (Y : List Char) :
    ∀ c, (dumpObjTail tl lvl ++ '\n' :: Y).head? = some c → c.isDigit = false := by
  intro c h
  cases tl with
  | nil => simp [dumpObjTail] at h; subst h; decide
  | cons k v tl => simp [dumpObjTail] at h; subst h; decide

mutual
theorem jsize_le_dumpV : ∀ (v : JValue) (lvl : Nat), jsizeV v ≤ (dumpValue v lvl).length + 1
  | .jnull, lvl => by simp [jsizeV, dumpValue]
  | .jbool true, lvl => by simp [jsizeV, dumpValue]
  | .jbool false, lvl => by simp [jsizeV, dumpValue]
  | .jnum n, lvl => by simp [jsizeV, dumpValue]
  | .jstr s, lvl => by simp [jsizeV, dumpValue]
  | .jarr .nil, lvl => by simp [jsizeV, jsizeA, dumpValue]
  | .jarr (.cons v tl), lvl => by
    have h1 := jsize_le_dumpV v (lvl + 1)
    have h2 := jsize_le_dumpA tl (lvl + 1)
    simp only [jsizeV, jsizeA, dumpValue, List.length_append, List.length_cons]
    omega
  | .jobj .nil, lvl => by simp [jsizeV, jsizeO, dumpValue]
  | .jobj (.cons k v tl), lvl => by
    have h1 := jsize_le_dumpV v (lvl + 1)
    have h2 := jsize_le_dumpO tl (lvl + 1)
    simp only [jsizeV, jsizeO, dumpValue, List.length_append, List.length_cons]
    omega
theorem jsize_le_dumpA : ∀ (a : JArr) (lvl : Nat), jsizeA a ≤ (dumpArrTail a lvl).length + 1
  | .nil, lvl => by simp [jsizeA, dumpArrTail]
  | .cons v tl, lvl => by
    have h1 := jsize_le_dumpV v lvl
    have h2 := jsize_le_dumpA tl lvl
    simp only [jsizeA, dumpArrTail, List.length_append, List.length_cons]
    omega
theorem jsize_le_dumpO : ∀ (o : JObj) (lvl : Nat), jsizeO o ≤ (dumpObjTail o lvl).length + 1
  | .nil, lvl => by simp [jsizeO, dumpObjTail]
  | .cons k v tl, lvl => by
    have h1 := jsize_le_dumpV v lvl
    have h2 := jsize_le_dumpO tl lvl
    simp only [jsizeO, dumpObjTail, List.length_append, List.length_cons]
    omega
end

theorem jsizeV_pos (v : JValue) : 1 ≤ jsizeV v := by
  cases v <;> simp [jsizeV]

theorem jsizeA_pos (a : JArr) : 1 ≤ jsizeA a := by
  cases a with
  | nil => simp [jsizeA]
  | cons v tl => simp only [jsizeA]; omega

theorem jsizeO_pos (o : JObj) : 1 ≤ jsizeO o := by
  cases o with
  | nil => simp [jsizeO]
  | cons k v tl => simp only [jsizeO]; omega

/-! ### One-step scanner reductions -/

theorem parseValue_lbracket (f : Nat) (Y : List Char) :
    parseValue (f + 1) ('[' :: Y) = parseElems f (skipWs Y) := rfl

theorem parseValue_lbrace (f : Nat) (Y : List Char) :
    parseValue (f + 1) ('{' :: Y) = parseMembers f (skipWs Y) := rfl

theorem parseValue_quote (f : Nat) (Y : List Char) :
    parseValue (f + 1) ('"' :: Y) =
      (match parseStringBody Y with
       | some p => some (.jstr p.1, p.2)
       | none => none) := rfl

theorem parseValue_not_special (f : Nat) (c : Char) (cs : List Char)
    (h1 : ¬ c = '{') (h2 : ¬ c = '[') (h3 : ¬ c = '"') (h4 : ¬ c = 't')
    (h5 : ¬ c = 'f') (h6 : ¬ c = 'n') :
    parseValue (f + 1) (c :: cs) = parseNumTok (c :: cs) := by
  simp only [parseValue]
  rw [if_neg h1, if_neg h2, if_neg h3, if_neg h4, if_neg h5, if_neg h6]

theorem parseElems_close (f : Nat) (cs : List Char) :
    parseElems (f + 1) (']' :: cs) = some (.jarr .nil, cs) := rfl

theorem parseElems_not_close (f : Nat) (c : Char) (cs : List Char) (h : ¬ c = ']') :
    parseElems (f + 1) (c :: cs) =
      (match parseValue f (c :: cs) with
       | none => none
       | some (v, r) =>
         match parseElemsTail f (skipWs r) with
         | none => none
         | some (tl, r2) => some (.jarr (.cons v tl), r2)) := by
  simp only [parseElems]
  rw [if_neg h]

theorem parseElemsTail_close (f : Nat) (cs : List Char) :
    parseElemsTail (f + 1) (']' :: cs) = some (.nil, cs) := rfl

theorem parseElemsTail_comma (f : Nat) (cs : List Char) :
    parseElemsTail (f + 1) (',' :: cs) =
      (match parseValue f (skipWs cs) with
       | none => none
       | some (v, r) =>
         match parseElemsTail f (skipWs r) with
         | none => none
         | some (tl, r2) => some (.cons v tl, r2)) := rfl

theorem parseMembers_close (f : Nat) (cs : List Char) :
    parseMembers (f + 1) ('}' :: cs) = some (.jobj .nil, cs) := rfl

theorem parseMembers_key (f : Nat) (Y : List Char) :
    parseMembers (f + 1) ('"' :: Y) =
      (match parseStringBody Y with
       | none => none
       | some (k, r1) =>
         match skipWs r1 with
         | [] => none
         | c2 :: r2 =>
           if c2 = ':' then
             match parseValue f (skipWs r2) with
             | none => none
             | some (v, r3) =>
               match parseMembersTail f (skipWs r3) with
               | none => none
               | some (ps, r4) => some (.jobj (dictOfPairs ((k, v) :: ps)), r4)
           else none) := rfl

theorem parseMembersTail_close (f : Nat) (cs : List Char) :
    parseMembersTail (f + 1) ('}' :: cs) = some ([], cs) := rfl

theorem parseMembersTail_comma (f : Nat) (cs : List Char) :
    parseMembersTail (f + 1) (',' :: cs) =
      (match skipWs cs with
       | [] => none
       | c1 :: r1 =>
         if c1 = '"' then
           match parseStringBody r1 with
           | none => none
           | some (k, r2) =>
             match skipWs r2 with
             | [] => none
             | c2 :: r3 =>
               if c2 = ':' then
                 match parseValue f (skipWs r3) with
                 | none => none
                 | some (v, r4) =>
                   match parseMembersTail f (skipWs r4) with
                   | none => none
                   | some (ps, r5) => some ((k, v) :: ps, r5)
               else none
         else none) := rfl

end PaPermGen

namespace PaPermGen

mutual
/-- Scanning the serialized form of a well-formed value (with any
non-digit continuation) returns exactly that value. -/
theorem rt_v : ∀ (v : JValue), wfV v → ∀ (f lvl : Nat) (rest : List Char),
    jsizeV v ≤ f → (∀ c, rest.head? = some c → c.isDigit = false) →
    parseValue f (dumpValue v lvl ++ rest) = some (v, rest)
  | .jnull, _, f, lvl, rest, hsz, _ => by
    obtain ⟨f1, rfl⟩ : ∃ f1, f = f1 + 1 := ⟨f - 1, by simp [jsizeV] at hsz; omega⟩
    rfl
  | .jbool true, _, f, lvl, rest, hsz, _ => by
    obtain ⟨f1, rfl⟩ : ∃ f1, f = f1 + 1 := ⟨f - 1, by simp [jsizeV] at hsz; omega⟩
    rfl
  | .jbool false, _, f, lvl, rest, hsz, _ => by
    obtain ⟨f1, rfl⟩ : ∃ f1, f = f1 + 1 := ⟨f - 1, by simp [jsizeV] at hsz; omega⟩
    rfl
  | .jnum n, _, f, lvl, rest, hsz, hrest => by
    obtain ⟨f1, rfl⟩ : ∃ f1, f = f1 + 1 := ⟨f - 1, by simp [jsizeV] at hsz; omega⟩
    show parseValue (f1 + 1) (intRepr n ++ rest) = some (.jnum n, rest)
    cases n with
    | ofNat k =>
      obtain ⟨_, ⟨c, t, hct, hcd, _⟩, _⟩ := natRepr_facts k
      have hd := isDigit_ne c hcd
      have h0 : intRepr (Int.ofNat k) = natRepr k := rfl
      rw [h0, hct, List.cons_append,
        parseValue_not_special f1 c _ hd.2.1 hd.2.2.1 hd.2.2.2.1 hd.2.2.2.2.1
          hd.2.2.2.2.2.1 hd.2.2.2.2.2.2.1,
        ← List.cons_append, ← hct, ← h0]
      exact parseNumTok_intRepr (Int.ofNat k) rest hrest
    | negSucc k =>
      have h0 : intRepr (Int.negSucc k) = '-' :: natRepr (k + 1) := rfl
      rw [h0, List.cons_append,
        parseValue_not_special f1 '-' _ (by decide) (by decide) (by decide) (by decide)
          (by decide) (by decide),
        ← List.cons_append, ← h0]
      exact parseNumTok_intRepr (Int.negSucc k) rest hrest
  | .jstr s, _, f, lvl, rest, hsz, _ => by
    obtain ⟨f1, rfl⟩ : ∃ f1, f = f1 + 1 := ⟨f - 1, by simp [jsizeV] at hsz; omega⟩
    show parseValue (f1 + 1) (encodeString s ++ rest) = some (.jstr s, rest)
    have h0 : encodeString s ++ rest = '"' :: (escBody s ++ '"' :: rest) := by
      simp [encodeString]
    rw [h0, parseValue_quote, escBody_round]
  | .jarr .nil, _, f, lvl, rest, hsz, _ => by
    obtain ⟨f1, rfl⟩ : ∃ f1, f = f1 + 1 :=
      ⟨f - 1, by simp [jsizeV, jsizeA] at hsz; omega⟩
    obtain ⟨f2, rfl⟩ : ∃ f2, f1 = f2 + 1 :=
      ⟨f1 - 1, by simp [jsizeV, jsizeA] at hsz; omega⟩
    show parseValue (f2 + 1 + 1) ('[' :: ']' :: rest) = some (.jarr .nil, rest)
    rw [parseValue_lbracket, skipWs_cons_of_not_ws (by decide), parseElems_close]
  | .jarr (.cons v tl), hwf, f, lvl, rest, hsz, hrest => by
    have hwv : wfV v := hwf.1
    have hwtl : wfA tl := hwf.2
    simp only [jsizeV, jsizeA] at hsz
    have hv1 := jsizeV_pos v
    have ha1 := jsizeA_pos tl
    obtain ⟨f1, rfl⟩ : ∃ f1, f = f1 + 1 := ⟨f - 1, by omega⟩
    obtain ⟨f2, rfl⟩ : ∃ f2, f1 = f2 + 1 := ⟨f1 - 1, by omega⟩
    show parseValue (f2 + 1 + 1)
      (('[' :: '\n' :: (indent (lvl + 1) ++ (dumpValue v (lvl + 1) ++
        (dumpArrTail tl (lvl + 1) ++ '\n' :: (indent lvl ++ [']']))))) ++ rest)
      = some (.jarr (.cons v tl), rest)
    simp only [List.cons_append, List.append_assoc, List.nil_append]
    rw [parseValue_lbracket, skipWs_newline, skipWs_indent, skipWs_dump]
    obtain ⟨c, t, hct, _, hc1, _, _⟩ := dump_head_shape v (lvl + 1)
    rw [hct, List.cons_append, parseElems_not_close f2 c _ hc1, ← List.cons_append, ← hct]
    rw [rt_v v hwv f2 (lvl + 1)
      (dumpArrTail tl (lvl + 1) ++ '\n' :: (indent lvl ++ ']' :: rest)) (by omega)
      (dumpArrTail_head_not_digit tl (lvl + 1) _)]
    dsimp only
    rw [rt_a tl hwtl f2 (lvl + 1) lvl rest (by omega)]
  | .jobj .nil, _, f, lvl, rest, hsz, _ => by
    obtain ⟨f1, rfl⟩ : ∃ f1, f = f1 + 1 :=
      ⟨f - 1, by simp [jsizeV, jsizeO] at hsz; omega⟩
    obtain ⟨f2, rfl⟩ : ∃ f2, f1 = f2 + 1 :=
      ⟨f1 - 1, by simp [jsizeV, jsizeO] at hsz; omega⟩
    show parseValue (f2 + 1 + 1) ('{' :: '}' :: rest) = some (.jobj .nil, rest)
    rw [parseValue_lbrace, skipWs_cons_of_not_ws (by decide), parseMembers_close]
  | .jobj (.cons k v tl), hwf, f, lvl, rest, hsz, hrest => by
    have hwk : ¬ k ∈ objKeys tl := hwf.1
    have hwv : wfV v := hwf.2.1
    have hwtl : wfO tl := hwf.2.2
    simp only [jsizeV, jsizeO] at hsz
    have hv1 := jsizeV_pos v
    have ho1 := jsizeO_pos tl
    obtain ⟨f1, rfl⟩ : ∃ f1, f = f1 + 1 := ⟨f - 1, by omega⟩
    obtain ⟨f2, rfl⟩ : ∃ f2, f1 = f2 + 1 := ⟨f1 - 1, by omega⟩
    show parseValue (f2 + 1 + 1)
      (('{' :: '\n' :: (indent (lvl + 1) ++ (encodeString k ++ ':' :: ' ' ::
        (dumpValue v (lvl + 1) ++ (dumpObjTail tl (lvl + 1) ++ '\n' ::
          (indent lvl ++ ['}'])))))) ++ rest)
      = some (.jobj (.cons k v tl), rest)
    simp only [List.cons_append, List.append_assoc, List.nil_append]
    rw [parseValue_lbrace, skipWs_newline, skipWs_indent]
    have henc : encodeString k ++ (':' :: ' ' :: (dumpValue v (lvl + 1) ++
        (dumpObjTail tl (lvl + 1) ++ '\n' :: (indent lvl ++ '}' :: rest))))
        = '"' :: (escBody k ++ '"' :: (':' :: ' ' :: (dumpValue v (lvl + 1) ++
          (dumpObjTail tl (lvl + 1) ++ '\n' :: (indent lvl ++ '}' :: rest))))) := by
      simp [encodeString]
    rw [henc, skipWs_cons_of_not_ws (by decide), parseMembers_key, escBody_round]
    dsimp only
    rw [skipWs_cons_of_not_ws (by decide)]
    dsimp only
    rw [skipWs_cons_of_ws (by decide), skipWs_dump]
    rw [rt_v v hwv f2 (lvl + 1)
      (dumpObjTail tl (lvl + 1) ++ '\n' :: (indent lvl ++ '}' :: rest)) (by omega)
      (dumpObjTail_head_not_digit tl (lvl + 1) _)]
    dsimp only
    rw [rt_o tl hwtl f2 (lvl + 1) lvl rest (by omega)]
    dsimp only
    rw [show dictOfPairs ((k, v) :: toPairs tl) = dictOfPairs (toPairs (.cons k v tl))
        from rfl,
      dictOfPairs_toPairs (.cons k v tl) ⟨hwk, hwv, hwtl⟩]
    simp
/-- Scanning the serialized continuation of a non-empty array plus the
closing bracket returns the remaining elements. -/
theorem rt_a : ∀ (a : JArr), wfA a → ∀ (f lvl lvl2 : Nat) (rest : List Char),
    jsizeA a ≤ f →
    parseElemsTail f (skipWs (dumpArrTail a lvl ++ '\n' :: (indent lvl2 ++ ']' :: rest)))
      = some (a, rest)
  | .nil, _, f, lvl, lvl2, rest, hsz => by
    obtain ⟨f1, rfl⟩ : ∃ f1, f = f1 + 1 := ⟨f - 1, by simp [jsizeA] at hsz; omega⟩
    show parseElemsTail (f1 + 1)
      (skipWs (([] : List Char) ++ '\n' :: (indent lvl2 ++ ']' :: rest))) = _
    rw [List.nil_append, skipWs_newline, skipWs_indent,
      skipWs_cons_of_not_ws (by decide), parseElemsTail_close]
  | .cons v tl, hwf, f, lvl, lvl2, rest, hsz => by
    have hwv : wfV v := hwf.1
    have hwtl : wfA tl := hwf.2
    simp only [jsizeA] at hsz
    have hv1 := jsizeV_pos v
    have ha1 := jsizeA_pos tl
    obtain ⟨f1, rfl⟩ : ∃ f1, f = f1 + 1 := ⟨f - 1, by omega⟩
    show parseElemsTail (f1 + 1)
      (skipWs ((',' :: '\n' :: (indent lvl ++ (dumpValue v lvl ++ dumpArrTail tl lvl)))
        ++ '\n' :: (indent lvl2 ++ ']' :: rest))) = _
    simp only [List.cons_append, List.append_assoc, List.nil_append]
    rw [skipWs_cons_of_not_ws (by decide), parseElemsTail_comma, skipWs_newline,
      skipWs_indent, skipWs_dump]
    rw [rt_v v hwv f1 lvl
      (dumpArrTail tl lvl ++ '\n' :: (indent lvl2 ++ ']' :: rest)) (by omega)
      (dumpArrTail_head_not_digit tl lvl _)]
    dsimp only
    rw [rt_a tl hwtl f1 lvl lvl2 rest (by omega)]
/-- Scanning the serialized continuation of a non-empty object plus the
closing brace returns the remaining member pairs. -/
theorem rt_o : ∀ (o : JObj), wfO o → ∀ (f lvl lvl2 : Nat) (rest : List Char),
    jsizeO o ≤ f →
    parseMembersTail f (skipWs (dumpObjTail o lvl ++ '\n' :: (indent lvl2 ++ '}' :: rest)))
      = some (toPairs o, rest)
  | .nil, _, f, lvl, lvl2, rest, hsz => by
    obtain ⟨f1, rfl⟩ : ∃ f1, f = f1 + 1 := ⟨f - 1, by simp [jsizeO] at hsz; omega⟩
    show parseMembersTail (f1 + 1)
      (skipWs (([] : List Char) ++ '\n' :: (indent lvl2 ++ '}' :: rest))) = _
    rw [List.nil_append, skipWs_newline, skipWs_indent,
      skipWs_cons_of_not_ws (by decide), parseMembersTail_close]
    rfl
  | .cons k v tl, hwf, f, lvl, lvl2, rest, hsz => by
    have hwv : wfV v := hwf.2.1
    have hwtl : wfO tl := hwf.2.2
    simp only [jsizeO] at hsz
    have hv1 := jsizeV_pos v
    have ho1 := jsizeO_pos tl
    obtain ⟨f1, rfl⟩ : ∃ f1, f = f1 + 1 := ⟨f - 1, by omega⟩
    show parseMembersTail (f1 + 1)
      (skipWs ((',' :: '\n' :: (indent lvl ++ (encodeString k ++ ':' :: ' ' ::
        (dumpValue v lvl ++ dumpObjTail tl lvl))))
        ++ '\n' :: (indent lvl2 ++ '}' :: rest))) = _
    simp only [List.cons_append, List.append_assoc, List.nil_append]
    rw [skipWs_cons_of_not_ws (by decide), parseMembersTail_comma, skipWs_newline,
      skipWs_indent]
    have henc : encodeString k ++ (':' :: ' ' :: (dumpValue v lvl ++
        (dumpObjTail tl lvl ++ '\n' :: (indent lvl2 ++ '}' :: rest))))
        = '"' :: (escBody k ++ '"' :: (':' :: ' ' :: (dumpValue v lvl ++
          (dumpObjTail tl lvl ++ '\n' :: (indent lvl2 ++ '}' :: rest))))) := by
      simp [encodeString]
    rw [henc, skipWs_cons_of_not_ws (by decide)]
    dsimp only
    rw [escBody_round]
    dsimp only
    rw [skipWs_cons_of_not_ws (by decide)]
    dsimp only
    rw [skipWs_cons_of_ws (by decide), skipWs_dump]
    rw [rt_v v hwv f1 lvl
      (dumpObjTail tl lvl ++ '\n' :: (indent lvl2 ++ '}' :: rest)) (by omega)
      (dumpObjTail_head_not_digit tl lvl _)]
    dsimp only
    rw [rt_o tl hwtl f1 lvl lvl2 rest (by omega)]
    simp [toPairs]
end

end PaPermGen

namespace PaPermGen

theorem wf_parseNumTok (s : List Char) (v : JValue) (r : List Char)
    (h : parseNumTok s = some (v, r)) : wfV v := by
  cases s with
  | nil => simp [parseNumTok] at h
  | cons c cs =>
    simp only [parseNumTok] at h
    split at h
    · cases hp : parseNatTok cs with
      | none => rw [hp] at h; simp at h
      | some p =>
        rw [hp] at h
        simp at h
        obtain ⟨h1, _⟩ := h
        subst h1
        trivial
    · cases hp : parseNatTok (c :: cs) with
      | none => rw [hp] at h; simp at h
      | some p =>
        rw [hp] at h
        simp at h
        obtain ⟨h1, _⟩ := h
        subst h1
        trivial

theorem wf_parse : ∀ f : Nat,
    (∀ s v r, parseValue f s = some (v, r) → wfV v) ∧
    (∀ s v r, parseElems f s = some (v, r) → wfV v) ∧
    (∀ s a r, parseElemsTail f s = some (a, r) → wfA a) ∧
    (∀ s v r, parseMembers f s = some (v, r) → wfV v) ∧
    (∀ s ps r, parseMembersTail f s = some (ps, r) → ∀ p ∈ ps, wfV p.2) := by
  intro f
  induction f with
  | zero =>
    refine ⟨?_, ?_, ?_, ?_, ?_⟩ <;> intro s x r h
    · simp [parseValue] at h
    · simp [parseElems] at h
    · simp [parseElemsTail] at h
    · simp [parseMembers] at h
    · simp [parseMembersTail] at h
  | succ f ih =>
    obtain ⟨ihv, ihe, ihet, ihm, ihmt⟩ := ih
    refine ⟨?_, ?_, ?_, ?_, ?_⟩
    · intro s v r h
      cases s with
      | nil => simp [parseValue] at h
      | cons c cs =>
        simp only [parseValue] at h
        split at h
        · exact ihm _ _ _ h
        · split at h
          · exact ihe _ _ _ h
          · split at h
            · cases hp : parseStringBody cs with
              | none => rw [hp] at h; simp at h
              | some p =>
                rw [hp] at h
                simp only [Option.some.injEq, Prod.mk.injEq] at h
                obtain ⟨h1, _⟩ := h
                subst h1
                trivial
            · split at h
              · split at h
                all_goals
                  first
                  | (split at h
                     · simp only [Option.some.injEq, Prod.mk.injEq] at h
                       obtain ⟨h1, _⟩ := h
                       subst h1
                       trivial
                     · simp at h)
                  | simp at h
              · split at h
                · split at h
                  all_goals
                    first
                    | (split at h
                       · simp only [Option.some.injEq, Prod.mk.injEq] at h
                         obtain ⟨h1, _⟩ := h
                         subst h1
                         trivial
                       · simp at h)
                    | simp at h
                · split at h
                  · split at h
                    all_goals
                      first
                      | (split at h
                         · simp only [Option.some.injEq, Prod.mk.injEq] at h
                           obtain ⟨h1, _⟩ := h
                           subst h1
                           trivial
                         · simp at h)
                      | simp at h
                  · exact wf_parseNumTok _ _ _ h
    · intro s v r h
      cases s with
      | nil => simp [parseElems] at h
      | cons c cs =>
        simp only [parseElems] at h
        split at h
        · simp only [Option.some.injEq, Prod.mk.injEq] at h
          obtain ⟨h1, _⟩ := h
          subst h1
          trivial
        · cases hp : parseValue f (c :: cs) with
          | none => rw [hp] at h; simp at h
          | some p =>
            obtain ⟨v1, r1⟩ := p
            rw [hp] at h
            dsimp only at h
            cases hp2 : parseElemsTail f (skipWs r1) with
            | none => rw [hp2] at h; simp at h
            | some q =>
              obtain ⟨tl, r2⟩ := q
              rw [hp2] at h
              dsimp only at h
              simp only [Option.some.injEq, Prod.mk.injEq] at h
              obtain ⟨h1, _⟩ := h
              subst h1
              exact ⟨ihv _ _ _ hp, ihet _ _ _ hp2⟩
    · intro s a r h
      cases s with
      | nil => simp [parseElemsTail] at h
      | cons c cs =>
        simp only [parseElemsTail] at h
        split at h
        · simp only [Option.some.injEq, Prod.mk.injEq] at h
          obtain ⟨h1, _⟩ := h
          subst h1
          trivial
        · split at h
          · cases hp : parseValue f (skipWs cs) with
            | none => rw [hp] at h; simp at h
            | some p =>
              obtain ⟨v1, r1⟩ := p
              rw [hp] at h
              dsimp only at h
              cases hp2 : parseElemsTail f (skipWs r1) with
              | none => rw [hp2] at h; simp at h
              | some q =>
                obtain ⟨tl, r2⟩ := q
                rw [hp2] at h
                dsimp only at h
                simp only [Option.some.injEq, Prod.mk.injEq] at h
                obtain ⟨h1, _⟩ := h
                subst h1
                exact ⟨ihv _ _ _ hp, ihet _ _ _ hp2⟩
          · simp at h
    · intro s v r h
      cases s with
      | nil => simp [parseMembers] at h
      | cons c cs =>
        simp only [parseMembers] at h
        split at h
        · simp only [Option.some.injEq, Prod.mk.injEq] at h
          obtain ⟨h1, _⟩ := h
          subst h1
          trivial
        · split at h
          · cases hps : parseStringBody cs with
            | none => rw [hps] at h; simp at h
            | some p =>
              obtain ⟨k, r1⟩ := p
              rw [hps] at h
              dsimp only at h
              cases hsw : skipWs r1 with
              | nil => rw [hsw] at h; simp at h
              | cons c2 r2 =>
                rw [hsw] at h
                dsimp only at h
                split at h
                · cases hv : parseValue f (skipWs r2) with
                  | none => rw [hv] at h; simp at h
                  | some q =>
                    obtain ⟨v1, r3⟩ := q
                    rw [hv] at h
                    dsimp only at h
                    cases hmt : parseMembersTail f (skipWs r3) with
                    | none => rw [hmt] at h; simp at h
                    | some w =>
                      obtain ⟨ps, r4⟩ := w
                      rw [hmt] at h
                      dsimp only at h
                      simp only [Option.some.injEq, Prod.mk.injEq] at h
                      obtain ⟨h1, _⟩ := h
                      subst h1
                      show wfO (dictOfPairs ((k, v1) :: ps))
                      apply dictOfPairs_wf
                      intro p hp
                      rcases List.mem_cons.mp hp with h2 | h2
                      · subst h2
                        exact ihv _ _ _ hv
                      · exact ihmt _ _ _ hmt p h2
                · simp at h
          · simp at h
    · intro s ps r h
      cases s with
      | nil => simp [parseMembersTail] at h
      | cons c cs =>
        simp only [parseMembersTail] at h
        split at h
        · simp only [Option.some.injEq, Prod.mk.injEq] at h
          obtain ⟨h1, _⟩ := h
          subst h1
          intro p hp
          simp at hp
        · split at h
          · cases hsw : skipWs cs with
            | nil => rw [hsw] at h; simp at h
            | cons c1 r1 =>
              rw [hsw] at h
              dsimp only at h
              split at h
              · cases hps : parseStringBody r1 with
                | none => rw [hps] at h; simp at h
                | some p =>
                  obtain ⟨k, r2⟩ := p
                  rw [hps] at h
                  dsimp only at h
                  cases hsw2 : skipWs r2 with
                  | nil => rw [hsw2] at h; simp at h
                  | cons c2 r3 =>
                    rw [hsw2] at h
                    dsimp only at h
                    split at h
                    · cases hv : parseValue f (skipWs r3) with
                      | none => rw [hv] at h; simp at h
                      | some q =>
                        obtain ⟨v1, r4⟩ := q
                        rw [hv] at h
                        dsimp only at h
                        cases hmt : parseMembersTail f (skipWs r4) with
                        | none => rw [hmt] at h; simp at h
                        | some w =>
                          obtain ⟨ps1, r5⟩ := w
                          rw [hmt] at h
                          dsimp only at h
                          simp only [Option.some.injEq, Prod.mk.injEq] at h
                          obtain ⟨h1, _⟩ := h
                          subst h1
                          intro p hp
                          rcases List.mem_cons.mp hp with h2 | h2
                          · subst h2
                            exact ihv _ _ _ hv
                          · exact ihmt _ _ _ hmt p h2
                    · simp at h
              · simp at h
          · simp at h

theorem wf_of_loads (s : List Char) (v : JValue) (h : json_loads s = some v) : wfV v := by
  simp only [json_loads] at h
  split at h
  · rename_i p hp
    split at h
    · simp only [Option.some.injEq] at h
      subst h
      exact (wf_parse _).1 _ _ _ hp
    · simp at h
  · simp at h

theorem json_loads_dump (v : JValue) (hwf : wfV v) :
    json_loads (json_dump_indent4 v) = some v := by
  simp only [json_loads, json_dump_indent4]
  have hskip : skipWs (dumpValue v 0) = dumpValue v 0 := by
    have := skipWs_dump v 0 []
    simpa using this
  rw [hskip]
  have hfuel : jsizeV v ≤ (dumpValue v 0).length + 1 := jsize_le_dumpV v 0
  have hparse : parseValue ((dumpValue v 0).length + 1) (dumpValue v 0 ++ []) = some (v, []) :=
    rt_v v hwf ((dumpValue v 0).length + 1) 0 [] hfuel (by intro c hc; simp at hc)
  rw [List.append_nil] at hparse
  rw [hparse]
  rfl

/-- C9: JSON round-trip through the validation gate.  For every
rendered text that parses as JSON, writing with format=json writes the
canonical re-serialization (stable insertion-ordered keys, 4-space
indentation) of the parsed value, and parsing the written output yields
a structure equal to the one the parse of the rendered text produced. -/
theorem C9_json_roundtrip (α : Type) (ya : Bool) (yp : List Char → Option α)
    (yd : α → List Char) (file : Option (List Char)) (data : List Char) (v : JValue)
    (h : json_loads data = some v) :
    write_output α ya yp yd true file data "json"
      = (some (json_dump_indent4 v), .success) ∧
    json_loads (json_dump_indent4 v) = some v := by
  constructor
  · simp [write_output, h]
  · exact json_loads_dump v (wf_of_loads data v h)

/-- C9 witness: the round-trip at the concrete rendered text "[1]". -/
theorem C9_json_roundtrip_witness :
    json_loads ['[', '1', ']'] = some (.jarr (.cons (.jnum 1) .nil)) ∧
    (write_output Unit true (fun _ => none) (fun _ => []) true none ['[', '1', ']'] "json"
      = (some (json_dump_indent4 (.jarr (.cons (.jnum 1) .nil))), .success) ∧
    json_loads (json_dump_indent4 (.jarr (.cons (.jnum 1) .nil)))
      = some (.jarr (.cons (.jnum 1) .nil))) :=
  ⟨rfl, C9_json_roundtrip Unit true (fun _ => none) (fun _ => []) none ['[', '1', ']']
    (.jarr (.cons (.jnum 1) .nil)) rfl⟩

end PaPermGen
